import Mathlib

/-!
Shallow embedding of the AEHD hypervisor acceleration layer
(`src/target/i386/aehd/aehd-all.c`): memory-slot manager, IRQ/MSI routing
table, vCPU register synchronization, dispatch loop, and control-call
transport.  Pure C helpers become Lean functions; the global mutable
state (`AEHDState`) becomes explicit state passing; hypervisor control
calls become entries in an event log carried in the state.
-/

namespace Aehd

/-! Section: Error numbers

Standard errno values used by the C code (`-EINTR`, `-EAGAIN`, ...).
The numeric values come from the platform errno tables; only their
distinctness and signs matter here. -/

def EINTR : Int := 4
def EAGAIN : Int := 11
def ENOSPC : Int := 28
def ESRCH : Int := 3
def E2BIG : Int := 7
def EFAULT : Int := 14

/-! Section: Control-call transport (`aehd_ioctl` / `aehd_vm_ioctl` / `aehd_vcpu_ioctl`)

Each of the three wrappers issues exactly one `DeviceIoControl` on its
handle and maps the OS-reported failure to an errno-style result.  The
OS outcome of the single call is the `IoOutcome`. -/

inductive IoOutcome where
  | ok : IoOutcome
  | errMoreData : IoOutcome
  | errRetry : IoOutcome
  | errOther (code : Nat) : IoOutcome
deriving DecidableEq, Repr

/-- Result mapping common to `aehd_ioctl`, `aehd_vm_ioctl` and
`aehd_vcpu_ioctl`: success maps to 0, `ERROR_MORE_DATA` to `-E2BIG`,
`ERROR_RETRY` to `-EAGAIN`, any other failure to `-EFAULT`. -/
def aehd_ioctl_result : IoOutcome → Int
  | .ok => 0
  | .errMoreData => -E2BIG
  | .errRetry => -EAGAIN
  | .errOther _ => -EFAULT

/-- Models one of the three single-attempt wrappers: one `DeviceIoControl`,
returning the mapped result together with the number of attempts (always 1). -/
def aehd_single_ioctl (o : IoOutcome) : Int × Nat :=
  (aehd_ioctl_result o, 1)

/-- The `AEHD_CREATE_VM` loop in `aehd_init`:
`do { ret = aehd_ioctl(s, AEHD_CREATE_VM, ...); } while (ret == -EINTR);`
modelled over the list of successive `aehd_ioctl` results.  Returns the
final result and the number of attempts made, or `none` if the supplied
result list is exhausted while still retrying. -/
def aehd_create_vm_loop : List Int → Option (Int × Nat)
  | [] => none
  | r :: rest =>
    if r = -EINTR then
      (aehd_create_vm_loop rest).map (fun p => (p.1, p.2 + 1))
    else
      some (r, 1)

/-! Section: Memory slots -/

/-- Memory-slot flags.  The numeric values live in the `aehd` interface
header (not under `src/`); they mirror the KVM ABI flag bits.  Only their
distinctness as single bits matters. -/
def AEHD_MEM_LOG_DIRTY_PAGES : Nat := 1
def AEHD_MEM_READONLY : Nat := 2

/-- One entry of the per-listener slot table (`AEHDSlot`). -/
structure AEHDSlot where
  slot : Nat
  start_addr : Nat
  memory_size : Nat
  ram : Nat
  flags : Nat
deriving DecidableEq, Repr

/-- Model of `AEHDMemoryListener`: the slot table plus the address-space id. -/
structure AEHDMemoryListener where
  slots : List AEHDSlot
  as_id : Nat
deriving DecidableEq, Repr

/-- The `struct aehd_userspace_memory_region` payload passed to one
`AEHD_SET_USER_MEMORY_REGION` control call. -/
structure MemRegionCall where
  slot : Nat
  guest_phys_addr : Nat
  userspace_addr : Nat
  flags : Nat
  memory_size : Nat
deriving DecidableEq, Repr

/-- Model of `aehd_set_user_memory_region`.  `ctl n` supplies the result of the
`n`-th `AEHD_SET_USER_MEMORY_REGION` vm-ioctl issued by this invocation
(the hypervisor's answer).  Returns the list of control calls issued, in
order, and the function's return value `r`.  Mirrors the C exactly: when
`slot->memory_size != 0` and the new flags contain `AEHD_MEM_READONLY`,
a first call with `mem.memory_size = 0` is issued and its result is then
overwritten by the result of the second, full-size call. -/
def aehd_set_user_memory_region (as_id : Nat) (slot : AEHDSlot) (ctl : Nat → Int) :
    List MemRegionCall × Int :=
  let base : MemRegionCall :=
    { slot := slot.slot ||| (as_id <<< 16)
      guest_phys_addr := slot.start_addr
      userspace_addr := slot.ram
      flags := slot.flags
      memory_size := 0 }
  if slot.memory_size ≠ 0 ∧ slot.flags &&& AEHD_MEM_READONLY ≠ 0 then
    ([{ base with memory_size := 0 }, { base with memory_size := slot.memory_size }], ctl 1)
  else
    ([{ base with memory_size := slot.memory_size }], ctl 0)

/-! Section: Section alignment (`aehd_align_section`)

The host page size is `2 ^ k`.  `alignDownPage a k = (a >>> k) <<< k` is
the C expression `a & qemu_real_host_page_mask()`, and `roundUpPage` is
`ROUND_UP(a, qemu_real_host_page_size())`. -/

def alignDownPage (a k : Nat) : Nat := (a >>> k) <<< k

def roundUpPage (a k : Nat) : Nat := alignDownPage (a + 2 ^ k - 1) k

/-- The properties of a `MemoryRegion` consulted by this file.  `is_romd`
models `memory_region_is_romd(mr)` and `ram_base` models
`memory_region_get_ram_ptr(mr)` (host pointers become naturals). -/
structure MemRegionProps where
  is_ram : Bool
  readonly : Bool
  rom_device : Bool
  romd_mode : Bool
  is_romd : Bool
  dirty_log_mask : Nat
  ram_base : Nat
deriving DecidableEq, Repr

/-- Model of `MemoryRegionSection`. -/
structure MemSection where
  offset_within_address_space : Nat
  size : Nat
  offset_within_region : Nat
  mr : MemRegionProps
deriving DecidableEq, Repr

/-- Model of `aehd_align_section`: pad the start address up to the next page
boundary and truncate the size down to a page multiple; returns
`(start, size)` with `size = 0` when the aligned section is empty. -/
def aehd_align_section (sec : MemSection) (k : Nat) : Nat × Nat :=
  let size := sec.size
  let aligned := roundUpPage sec.offset_within_address_space k
  let delta := aligned - sec.offset_within_address_space
  if delta > size then (aligned, 0)
  else (aligned, alignDownPage (size - delta) k)

/-- Model of `aehd_mem_flags`. -/
def aehd_mem_flags (mr : MemRegionProps) : Nat :=
  let readonly := mr.readonly || mr.is_romd
  (if mr.dirty_log_mask ≠ 0 then AEHD_MEM_LOG_DIRTY_PAGES else 0) +
    (if readonly then AEHD_MEM_READONLY else 0)

/-- Model of `aehd_get_free_slot`: index of the first slot with `memory_size == 0`. -/
def findFreeIdx : List AEHDSlot → Option Nat
  | [] => none
  | m :: rest =>
    if m.memory_size = 0 then some 0 else (findFreeIdx rest).map (· + 1)

def aehd_get_free_slot (gml : AEHDMemoryListener) : Option Nat :=
  findFreeIdx gml.slots

/-- Model of `aehd_lookup_matching_slot`: index of the first slot with exactly the
given `(start_addr, memory_size)`. -/
def lookupIdx (start size : Nat) : List AEHDSlot → Option Nat
  | [] => none
  | m :: rest =>
    if start = m.start_addr ∧ size = m.memory_size then some 0
    else (lookupIdx start size rest).map (· + 1)

def aehd_lookup_matching_slot (gml : AEHDMemoryListener) (start size : Nat) :
    Option Nat :=
  lookupIdx start size gml.slots

/-- Model of `aehd_set_phys_mem` (slot-table effect).  The
`AEHD_SET_USER_MEMORY_REGION` control calls it issues do not change the
slot table and are modelled separately by `aehd_set_user_memory_region`;
the dirty-bitmap sync on the removal path only touches external dirty
tracking.  Returns `none` where the C aborts (`aehd_alloc_slot` with no
free slot). -/
def aehd_set_phys_mem (k : Nat) (gml : AEHDMemoryListener) (sec : MemSection)
    (add0 : Bool) : Option AEHDMemoryListener :=
  let mr := sec.mr
  let writeable := ¬mr.readonly ∧ ¬mr.rom_device
  if ¬mr.is_ram ∧ writeable then some gml
  else
    let add := if ¬mr.is_ram ∧ ¬mr.romd_mode then false else add0
    let p := aehd_align_section sec k
    let start := p.1
    let size := p.2
    if size = 0 then some gml
    else
      let ram := mr.ram_base + sec.offset_within_region +
        (start - sec.offset_within_address_space)
      if ¬add then
        match aehd_lookup_matching_slot gml start size with
        | none => some gml
        | some i =>
          match gml.slots.get? i with
          | none => some gml
          | some m =>
            some { gml with slots := gml.slots.set i ({ m with memory_size := 0 }) }
      else
        match aehd_get_free_slot gml with
        | none => none
        | some i =>
          match gml.slots.get? i with
          | none => none
          | some m =>
            let newSlot : AEHDSlot :=
              { slot := m.slot, start_addr := start, memory_size := size,
                ram := ram, flags := aehd_mem_flags mr }
            some { gml with slots := gml.slots.set i newSlot }

/-- Model of `aehd_region_add` (slot-table effect; `memory_region_ref` is external). -/
def aehd_region_add (k : Nat) (gml : AEHDMemoryListener) (sec : MemSection) :
    Option AEHDMemoryListener :=
  aehd_set_phys_mem k gml sec true

/-- Model of `aehd_region_del` (slot-table effect; `memory_region_unref` is external). -/
def aehd_region_del (k : Nat) (gml : AEHDMemoryListener) (sec : MemSection) :
    Option AEHDMemoryListener :=
  aehd_set_phys_mem k gml sec false

/-! Section: IRQ/MSI routing table -/

/-- Routing-entry payload: the `type` discriminant together with the
`u` union of `struct aehd_irq_routing_entry`. -/
inductive RoutePayload where
  | irqchip (chip pin : Nat) : RoutePayload
  | msi (address_lo address_hi data : Nat) : RoutePayload
deriving DecidableEq, Repr

/-- Model of `struct aehd_irq_routing_entry` (the `flags` field is always 0). -/
structure RouteEntry where
  gsi : Nat
  flags : Nat
  u : RoutePayload
deriving DecidableEq, Repr

/-- A cached dynamic MSI route (`AEHDMSIRoute`). -/
structure AEHDMSIRoute where
  kroute : RouteEntry
deriving DecidableEq, Repr

/-- Observable control calls issued by the routing table:
`AEHD_SET_GSI_ROUTING` commits and `AEHD_IRQ_LINE_STATUS` signals. -/
inductive REvent where
  | commit : REvent
  | setIrq (gsi level : Nat) : REvent
deriving DecidableEq, Repr

/-- Model of `AEHD_MSI_HASHTAB_SIZE`: 256 buckets, indexed by `data & 0xff`. -/
def AEHD_MSI_HASHTAB_SIZE : Nat := 256

/-- The routing-relevant part of `AEHDState`: the GSI bitmap, the
ordered routing-entry sequence (`irq_routes`), the MSI hash table and
the hypervisor-advertised GSI capacity, plus the event log.  The
`nr_allocated_irq_routes` realloc bookkeeping of the C is memory
management with no effect on the entry sequence and is not carried. -/
structure RState where
  gsi_count : Nat
  used_gsi_bitmap : Finset Nat
  entries : List RouteEntry
  msi_hashtab : Nat → List AEHDMSIRoute
  events : List REvent

/-- Model of `aehd_init_irq_routing`: empty bitmap, no entries, empty buckets. -/
def initState (cap : Nat) : RState :=
  { gsi_count := cap
    used_gsi_bitmap := ∅
    entries := []
    msi_hashtab := fun _ => []
    events := [] }

/-- Model of `MSIMessage`: a 64-bit address and 32-bit data payload.
`le32_to_cpu` is the identity on the little-endian hosts this code
targets, so `data` is stored as-is. -/
structure MSIMessage where
  address : Nat
  data : Nat
deriving DecidableEq, Repr

def set_gsi (s : RState) (gsi : Nat) : RState :=
  { s with used_gsi_bitmap := insert gsi s.used_gsi_bitmap }

def clear_gsi (s : RState) (gsi : Nat) : RState :=
  { s with used_gsi_bitmap := s.used_gsi_bitmap.erase gsi }

/-- Model of `aehd_irqchip_commit_routes`: one `AEHD_SET_GSI_ROUTING` control call. -/
def aehd_irqchip_commit_routes (s : RState) : RState :=
  { s with events := s.events ++ [REvent.commit] }

/-- Model of `aehd_set_irq`: one `AEHD_IRQ_LINE_STATUS` control call.  The returned
`event.status` is written by the hypervisor and is modelled as 0. -/
def aehd_set_irq (s : RState) (irq level : Nat) : RState × Int :=
  ({ s with events := s.events ++ [REvent.setIrq irq level] }, 0)

/-- Model of `aehd_add_routing_entry`: append the entry and mark its GSI used. -/
def aehd_add_routing_entry (s : RState) (e : RouteEntry) : RState :=
  set_gsi { s with entries := s.entries ++ [e] } e.gsi

/-- The removal loop of `aehd_irqchip_release_virq`:
`for (i = 0; i < nr; i++) if (entries[i].gsi == virq) { nr--; entries[i] = entries[nr]; }`.
A matching element is replaced by the current last element, which is then
*not* re-examined (the loop moves on to the next index). -/
def releaseScan (virq : Nat) : List RouteEntry → List RouteEntry
  | [] => []
  | e :: rest =>
    if e.gsi = virq then
      match rest.getLast? with
      | none => []
      | some lastE => lastE :: releaseScan virq rest.dropLast
    else
      e :: releaseScan virq rest
termination_by l => l.length
decreasing_by
  · simp only [List.length_cons]
    have := List.length_dropLast rest
    omega
  · simp [Nat.lt_succ_self]

/-- Model of `aehd_irqchip_release_virq` (the `aehd_arch_release_virq_post` hook is
an external collaborator with no state here). -/
def aehd_irqchip_release_virq (s : RState) (virq : Nat) : RState :=
  clear_gsi { s with entries := releaseScan virq s.entries } virq

/-- Model of `aehd_update_routing_entry`: in-place replace of the first entry with
the same GSI (an entry equal to the new one is left as-is, which yields
the same list); `-ESRCH` when no entry owns that GSI. -/
def updateScan (new : RouteEntry) : List RouteEntry → Option (List RouteEntry)
  | [] => none
  | e :: rest =>
    if e.gsi = new.gsi then some (new :: rest)
    else (updateScan new rest).map (e :: ·)

def aehd_update_routing_entry (s : RState) (new : RouteEntry) : RState × Int :=
  match updateScan new s.entries with
  | none => (s, -ESRCH)
  | some l => ({ s with entries := l }, 0)

/-- Model of `aehd_irqchip_add_irq_route`.  The C asserts `pin < s->gsi_count`
(aborting otherwise); states produced by a failing assert do not exist,
which the reachability relations below capture as a precondition. -/
def aehd_irqchip_add_irq_route (s : RState) (irq irqchip pin : Nat) : RState :=
  aehd_add_routing_entry s
    { gsi := irq, flags := 0, u := RoutePayload.irqchip irqchip pin }

/-- Model of `aehd_hash_msi`: the lowest byte of the MSI data. -/
def aehd_hash_msi (data : Nat) : Nat := data &&& 0xff

/-- Release the GSIs of the routes of one hash bucket, in bucket order,
then empty the bucket: the per-bucket effect of
`aehd_flush_dynamic_msi_routes` (the C removes each route as it is
processed; releasing all and then clearing the bucket yields the same
final state). -/
def flushBucket (s : RState) (h : Nat) : RState :=
  let s' := (s.msi_hashtab h).foldl
    (fun acc r => aehd_irqchip_release_virq acc r.kroute.gsi) s
  { s' with msi_hashtab := fun h2 => if h2 = h then [] else s'.msi_hashtab h2 }

/-- Model of `aehd_flush_dynamic_msi_routes`: flush every bucket, in index order. -/
def aehd_flush_dynamic_msi_routes (s : RState) : RState :=
  (List.range AEHD_MSI_HASHTAB_SIZE).foldl flushBucket s

/-- Model of `find_first_zero_bit(bitmap, n)` starting the scan at `i` with `fuel`
indices left: the least `j ≥ i` not in the bitmap, or `i + fuel`. -/
def findFirstZeroFrom (b : Finset Nat) : Nat → Nat → Nat
  | i, 0 => i
  | i, fuel + 1 => if i ∈ b then findFirstZeroFrom b (i + 1) fuel else i

def find_first_zero_bit (b : Finset Nat) (n : Nat) : Nat :=
  findFirstZeroFrom b 0 n

/-- Model of `aehd_irqchip_get_virq`: flush the dynamic MSI routes when the
routing-entry count has reached the GSI capacity, then return the lowest
unused GSI, or `-ENOSPC` when the bitmap is full. -/
def aehd_irqchip_get_virq (s : RState) : RState × Int :=
  let s1 := if s.entries.length = s.gsi_count then aehd_flush_dynamic_msi_routes s else s
  let next_virq := find_first_zero_bit s1.used_gsi_bitmap s1.gsi_count
  if next_virq ≥ s1.gsi_count then (s1, -ENOSPC) else (s1, Int.ofNat next_virq)

/-- The MSI payload the C builds from a message:
`address_lo = (uint32_t)msg.address`, `address_hi = msg.address >> 32`,
`data = le32_to_cpu(msg.data)` (identity on little-endian hosts). -/
def msiPayload (msg : MSIMessage) : RoutePayload :=
  RoutePayload.msi (msg.address % 2 ^ 32) (msg.address >>> 32) msg.data

/-- The match test of `aehd_lookup_msi_route` (the C reads `u.msi` of a
cached route, which only ever holds MSI payloads). -/
def msiRouteMatches (msg : MSIMessage) (r : AEHDMSIRoute) : Bool :=
  match r.kroute.u with
  | RoutePayload.msi lo hi d =>
    lo = msg.address % 2 ^ 32 ∧ hi = msg.address >>> 32 ∧ d = msg.data
  | _ => false

/-- Model of `aehd_lookup_msi_route`: scan the bucket selected by the data hash. -/
def aehd_lookup_msi_route (s : RState) (msg : MSIMessage) : Option AEHDMSIRoute :=
  (s.msi_hashtab (aehd_hash_msi msg.data)).find? (msiRouteMatches msg)

/-- Model of `aehd_irqchip_send_msi`: on a cache hit, signal the cached GSI; on a
miss, allocate a GSI, append and commit the route, insert it at the tail
of its hash bucket, then signal. -/
def aehd_irqchip_send_msi (s : RState) (msg : MSIMessage) : RState × Int :=
  match aehd_lookup_msi_route s msg with
  | some route => aehd_set_irq s route.kroute.gsi 1
  | none =>
    let p := aehd_irqchip_get_virq s
    let s1 := p.1
    let virq := p.2
    if virq < 0 then (s1, virq)
    else
      let kr : RouteEntry := { gsi := virq.toNat, flags := 0, u := msiPayload msg }
      let s2 := aehd_add_routing_entry s1 kr
      let s3 := aehd_irqchip_commit_routes s2
      let s4 := { s3 with msi_hashtab := fun h =>
        if h = aehd_hash_msi msg.data then s3.msi_hashtab h ++ [⟨kr⟩]
        else s3.msi_hashtab h }
      aehd_set_irq s4 kr.gsi 1

/-- Model of `aehd_irqchip_add_msi_route` (the message is obtained from the PCI
device by an external collaborator; `aehd_arch_add_msi_route_post` is an
external hook). -/
def aehd_irqchip_add_msi_route (s : RState) (msg : MSIMessage) : RState × Int :=
  let p := aehd_irqchip_get_virq s
  let s1 := p.1
  let virq := p.2
  if virq < 0 then (s1, virq)
  else
    let kr : RouteEntry := { gsi := virq.toNat, flags := 0, u := msiPayload msg }
    let s2 := aehd_add_routing_entry s1 kr
    (aehd_irqchip_commit_routes s2, virq)

/-- Model of `aehd_irqchip_update_msi_route`. -/
def aehd_irqchip_update_msi_route (s : RState) (virq : Nat) (msg : MSIMessage) :
    RState × Int :=
  aehd_update_routing_entry s { gsi := virq, flags := 0, u := msiPayload msg }

/-- Number of routing entries carrying a given GSI. -/
def countGsi (l : List RouteEntry) (g : Nat) : Nat :=
  (l.filter (fun e => e.gsi = g)).length

/-- The claimed routing-table invariant: every allocated GSI has at most
one routing entry, and the entry count never exceeds the GSI capacity. -/
def routingInvariant (s : RState) : Prop :=
  (∀ g ∈ s.used_gsi_bitmap, countGsi s.entries g ≤ 1) ∧
    s.entries.length ≤ s.gsi_count

/-- States reachable from the initial routing state through the public
operations with arbitrary arguments. -/
inductive Reach (cap : Nat) : RState → Prop where
  | init : Reach cap (initState cap)
  | allocGsi {s} : Reach cap s → Reach cap (aehd_irqchip_get_virq s).1
  | addIrqchip {s} (irq irqchip pin : Nat) : Reach cap s →
      Reach cap (aehd_irqchip_add_irq_route s irq irqchip pin)
  | addMsi {s} (msg : MSIMessage) : Reach cap s →
      Reach cap (aehd_irqchip_add_msi_route s msg).1
  | updateMsi {s} (virq : Nat) (msg : MSIMessage) : Reach cap s →
      Reach cap (aehd_irqchip_update_msi_route s virq msg).1
  | release {s} (virq : Nat) : Reach cap s →
      Reach cap (aehd_irqchip_release_virq s virq)
  | sendMsi {s} (msg : MSIMessage) : Reach cap s →
      Reach cap (aehd_irqchip_send_msi s msg).1
  | flush {s} : Reach cap s → Reach cap (aehd_flush_dynamic_msi_routes s)

/-- States reachable when every `aehd_irqchip_add_irq_route` call supplies
a pin below capacity (the C assert) and a GSI below capacity that is not
currently allocated. -/
inductive ReachOK (cap : Nat) : RState → Prop where
  | init : ReachOK cap (initState cap)
  | allocGsi {s} : ReachOK cap s → ReachOK cap (aehd_irqchip_get_virq s).1
  | addIrqchip {s} (irq irqchip pin : Nat) : ReachOK cap s →
      irq < s.gsi_count → irq ∉ s.used_gsi_bitmap → pin < s.gsi_count →
      ReachOK cap (aehd_irqchip_add_irq_route s irq irqchip pin)
  | addMsi {s} (msg : MSIMessage) : ReachOK cap s →
      ReachOK cap (aehd_irqchip_add_msi_route s msg).1
  | updateMsi {s} (virq : Nat) (msg : MSIMessage) : ReachOK cap s →
      ReachOK cap (aehd_irqchip_update_msi_route s virq msg).1
  | release {s} (virq : Nat) : ReachOK cap s →
      ReachOK cap (aehd_irqchip_release_virq s virq)
  | sendMsi {s} (msg : MSIMessage) : ReachOK cap s →
      ReachOK cap (aehd_irqchip_send_msi s msg).1
  | flush {s} : ReachOK cap s → ReachOK cap (aehd_flush_dynamic_msi_routes s)

/-! Section: vCPU register synchronization -/

/-- The per-vCPU synchronization state: the `vcpu_dirty` flag plus a
count of `aehd_arch_get_registers` pulls performed (the external hook's
invocation count). -/
structure VcpuSyncState where
  vcpu_dirty : Bool
  pulls : Nat
deriving DecidableEq, Repr

/-- Model of `do_aehd_cpu_synchronize_state`: pull from the hypervisor only when
not already dirty, then mark dirty. -/
def do_aehd_cpu_synchronize_state (c : VcpuSyncState) : VcpuSyncState :=
  if ¬c.vcpu_dirty then { vcpu_dirty := true, pulls := c.pulls + 1 } else c

/-- Model of `do_aehd_cpu_synchronize_post_reset`: push reset state, mark clean. -/
def do_aehd_cpu_synchronize_post_reset (c : VcpuSyncState) : VcpuSyncState :=
  { c with vcpu_dirty := false }

/-- Model of `do_aehd_cpu_synchronize_post_init`: push full state, mark clean. -/
def do_aehd_cpu_synchronize_post_init (c : VcpuSyncState) : VcpuSyncState :=
  { c with vcpu_dirty := false }

/-- Model of `do_aehd_cpu_synchronize_pre_loadvm`: mark dirty without pulling. -/
def do_aehd_cpu_synchronize_pre_loadvm (c : VcpuSyncState) : VcpuSyncState :=
  { c with vcpu_dirty := true }

/-! Section: Execution dispatch loop (`aehd_cpu_exec`) -/

/-- QEMU exception codes from the core headers (not under `src/`); only
the values' being positive and mutually distinct matters. -/
def EXCP_INTERRUPT : Int := 0x10004
def EXCP_HLT : Int := 0x10001

/-- Model of `AEHD_INTERNAL_ERROR_EMULATION` tag value from the interface header
(not under `src/`); only its equality test matters. -/
def AEHD_INTERNAL_ERROR_EMULATION : Nat := 1

inductive SysEventType where
  | sysShutdown : SysEventType
  | sysReset : SysEventType
  | sysCrash : SysEventType
  | sysOther (t : Nat) : SysEventType
deriving DecidableEq, Repr

/-- Model of `run->exit_reason` classification. -/
inductive ExitReason where
  | exitIo : ExitReason
  | exitMmio : ExitReason
  | exitIrqWindowOpen : ExitReason
  | exitIntr : ExitReason
  | exitShutdown : ExitReason
  | exitUnknown : ExitReason
  | exitInternalError (suberror : Nat) : ExitReason
  | exitSystemEvent (t : SysEventType) : ExitReason
  | exitOther (code : Nat) : ExitReason
deriving DecidableEq, Repr

/-- The hypervisor- and architecture-supplied inputs of one loop
iteration: the `AEHD_RUN` ioctl result, the exit reason (consulted when
the run result is non-negative), and the results of the
`aehd_arch_stop_on_emulation_error` and `aehd_arch_handle_exit` hooks. -/
structure RunIter where
  run_ret : Int
  reason : ExitReason
  stopOnEmulErr : Bool
  archExitRet : Int
deriving DecidableEq, Repr

/-- Externally visible actions of the loop body. -/
inductive CpuEffect where
  | putRegisters : CpuEffect
  | ioAccess : CpuEffect
  | mmioAccess : CpuEffect
  | resetRequest : CpuEffect
  | shutdownRequest : CpuEffect
  | syncState : CpuEffect
  | guestPanic : CpuEffect
  | dumpState : CpuEffect
  | vmStop : CpuEffect
deriving DecidableEq, Repr

/-- Model of `aehd_handle_internal_error`: an emulation-failure suberror where the
architecture does not want to stop dumps CPU state and yields
`EXCP_INTERRUPT`; everything else yields `-1`. -/
def aehd_handle_internal_error (suberror : Nat) (stopOnEmulErr : Bool) :
    Int × List CpuEffect :=
  if suberror = AEHD_INTERNAL_ERROR_EMULATION ∧ ¬stopOnEmulErr then
    (EXCP_INTERRUPT, [CpuEffect.dumpState])
  else (-1, [])

/-- One iteration of the `do { ... } while (ret == 0)` body of
`aehd_cpu_exec`, threading the `vcpu_dirty` flag.  Returns the flag after
the iteration, the iteration's `ret`, and the effects performed.  The
`aehd_arch_pre_run` hook and the self-kick on `exit_request` do not
contribute to `ret` and are not modelled. -/
def aehd_run_step (dirty : Bool) (it : RunIter) : Bool × Int × List CpuEffect :=
  let fx0 : List CpuEffect := if dirty then [CpuEffect.putRegisters] else []
  let d1 : Bool := false
  if it.run_ret < 0 then
    if it.run_ret = -EINTR ∨ it.run_ret = -EAGAIN then (d1, EXCP_INTERRUPT, fx0)
    else (d1, -1, fx0)
  else
    match it.reason with
    | ExitReason.exitIo => (d1, 0, fx0 ++ [CpuEffect.ioAccess])
    | ExitReason.exitMmio => (d1, 0, fx0 ++ [CpuEffect.mmioAccess])
    | ExitReason.exitIrqWindowOpen => (d1, EXCP_INTERRUPT, fx0)
    | ExitReason.exitIntr => (d1, EXCP_INTERRUPT, fx0)
    | ExitReason.exitShutdown => (d1, EXCP_INTERRUPT, fx0 ++ [CpuEffect.resetRequest])
    | ExitReason.exitUnknown => (d1, -1, fx0)
    | ExitReason.exitInternalError sub =>
      let p := aehd_handle_internal_error sub it.stopOnEmulErr
      (d1, p.1, fx0 ++ p.2)
    | ExitReason.exitSystemEvent t =>
      match t with
      | SysEventType.sysShutdown => (d1, EXCP_INTERRUPT, fx0 ++ [CpuEffect.shutdownRequest])
      | SysEventType.sysReset => (d1, EXCP_INTERRUPT, fx0 ++ [CpuEffect.resetRequest])
      | SysEventType.sysCrash =>
        (true, 0, fx0 ++ [CpuEffect.syncState, CpuEffect.guestPanic])
      | SysEventType.sysOther _ => (d1, it.archExitRet, fx0)
    | ExitReason.exitOther _ => (d1, it.archExitRet, fx0)

/-- The dispatch loop over a finite list of iteration inputs: keep
iterating while the body's result is exactly 0, returning the first
nonzero result together with the final dirty flag and the concatenated
effects; `none` when the input trace is exhausted while still looping. -/
def aehd_cpu_exec_loop (dirty : Bool) : List RunIter → Option (Bool × Int × List CpuEffect)
  | [] => none
  | it :: rest =>
    let r := aehd_run_step dirty it
    if r.2.1 = 0 then
      (aehd_cpu_exec_loop r.1 rest).map (fun q => (q.1, q.2.1, r.2.2 ++ q.2.2))
    else
      some r

/-- Model of `aehd_cpu_exec`: immediate `EXCP_HLT` when pending asynchronous
events need no run; otherwise run the loop, and on a negative final
result dump the CPU state and stop the VM before returning. -/
def aehd_cpu_exec (asyncEvents : Bool) (dirty : Bool) (its : List RunIter) :
    Option (Bool × Int × List CpuEffect) :=
  if asyncEvents then some (dirty, EXCP_HLT, [])
  else
    (aehd_cpu_exec_loop dirty its).map (fun q =>
      (q.1, q.2.1, q.2.2 ++ (if q.2.1 < 0 then [CpuEffect.dumpState, CpuEffect.vmStop] else [])))

/-! Section: convenience forms used by the statements below -/

/-- The route entry built by the MSI paths of the C
(`kroute.gsi = virq; kroute.type = AEHD_IRQ_ROUTING_MSI; ...`). -/
def msiEntry (g : Nat) (msg : MSIMessage) : RouteEntry :=
  { gsi := g, flags := 0, u := msiPayload msg }

/-- Predicate form of the claimed at-most-one-entry property. -/
def AtMostOne (l : List RouteEntry) : Prop :=
  ∀ g, countGsi l g ≤ 1

/-- The strengthened routing-table invariant the proofs maintain: every
routing entry's GSI is marked allocated and below the GSI capacity, and
no GSI owns two routing entries. -/
def FullInv (s : RState) : Prop :=
  (∀ e ∈ s.entries, e.gsi ∈ s.used_gsi_bitmap ∧ e.gsi < s.gsi_count) ∧
    AtMostOne s.entries

/-! Section: concrete sample inputs used by witnesses and counterexamples -/

/-- A nonempty slot whose (new) flags contain the read-only bit. -/
def slotRO : AEHDSlot :=
  { slot := 0, start_addr := 4096, memory_size := 4096, ram := 0,
    flags := AEHD_MEM_READONLY }

/-- Hypervisor answers where the first set-memory-region call fails and
the second succeeds. -/
def ctlW : Nat → Int := fun n => if n = 0 then -EFAULT else 0

def msgA : MSIMessage := { address := 0xfee00000, data := 0x45 }

def msgB : MSIMessage := { address := 0xfee00000, data := 0x46 }

/-- An iteration whose run succeeds with an IO exit. -/
def itIo : RunIter :=
  { run_ret := 0, reason := ExitReason.exitIo, stopOnEmulErr := false, archExitRet := 0 }

/-- An iteration whose run succeeds with an interrupt exit. -/
def itIntr : RunIter :=
  { run_ret := 0, reason := ExitReason.exitIntr, stopOnEmulErr := false, archExitRet := 0 }

/-- Two irqchip routes registered for the same GSI. -/
def c4BadState : RState :=
  aehd_irqchip_add_irq_route (aehd_irqchip_add_irq_route (initState 2) 0 0 0) 0 0 0

/-- A routing table at capacity (2 GSIs, 2 cached dynamic MSI routes). -/
def sCap : RState :=
  (aehd_irqchip_send_msi (aehd_irqchip_send_msi (initState 2) msgA).1 msgB).1

/-- A duplicate-GSI state reached through the public operations: two
irqchip routes for GSI 0, then a release of GSI 0 (whose swap-with-last
loop skips the swapped-in duplicate, leaving one GSI-0 entry with the
bitmap bit clear), then an MSI send that re-allocates GSI 0 and caches a
route for it.  The table is now at capacity 2 with a cached route whose
GSI still owns a duplicate entry. -/
def sC3Bad : RState :=
  (aehd_irqchip_send_msi
    (aehd_irqchip_release_virq
      (aehd_irqchip_add_irq_route
        (aehd_irqchip_add_irq_route (initState 2) 0 0 0) 0 0 0) 0) msgA).1

/-- The irqchip routing entry registered twice in the trace of `sC3Bad`. -/
def irqE : RouteEntry := { gsi := 0, flags := 0, u := RoutePayload.irqchip 0 0 }

/-- The intermediate state of the `sC3Bad` trace after the release: the
swap-with-last skip has left one of the two GSI-0 entries in place while
the bitmap bit is cleared. -/
def sC3Mid : RState :=
  { gsi_count := 2
    used_gsi_bitmap := (insert 0 (insert 0 (∅ : Finset Nat))).erase 0
    entries := [irqE]
    msi_hashtab := fun _ => []
    events := [] }

/-- The literal form of `sC3Bad`: at capacity 2, with the leftover
irqchip entry and the MSI route both carrying GSI 0, and the MSI route
cached in its bucket. -/
def sC3Lit : RState :=
  { gsi_count := 2
    used_gsi_bitmap := insert 0 ((insert 0 (insert 0 (∅ : Finset Nat))).erase 0)
    entries := [irqE, msiEntry 0 msgA]
    msi_hashtab := fun h =>
      (if h = aehd_hash_msi msgA.data then [⟨msiEntry 0 msgA⟩] else [])
    events := [REvent.commit, REvent.setIrq 0 1] }

def mrRam : MemRegionProps :=
  { is_ram := true, readonly := false, rom_device := false, romd_mode := false,
    is_romd := false, dirty_log_mask := 0, ram_base := 65536 }

/-- A page-aligned RAM section (start `0x1000`, size `0x2000`). -/
def secA : MemSection :=
  { offset_within_address_space := 4096, size := 8192, offset_within_region := 0,
    mr := mrRam }

/-- A sub-page unaligned section (start 100, size 5000). -/
def secUnal : MemSection :=
  { offset_within_address_space := 100, size := 5000, offset_within_region := 0,
    mr := mrRam }

/-- An empty two-slot table. -/
def gml0 : AEHDMemoryListener :=
  { slots := [{ slot := 0, start_addr := 0, memory_size := 0, ram := 0, flags := 0 },
              { slot := 1, start_addr := 0, memory_size := 0, ram := 0, flags := 0 }],
    as_id := 0 }

/-! Section: arithmetic facts about page alignment -/

theorem alignDownPage_eq_div_mul (a k : Nat) : alignDownPage a k = a / 2 ^ k * 2 ^ k := by
  unfold alignDownPage
  rw [Nat.shiftRight_eq_div_pow, Nat.shiftLeft_eq]

theorem alignDownPage_eq_sub_mod (a k : Nat) : alignDownPage a k = a - a % 2 ^ k := by
  rw [alignDownPage_eq_div_mul]
  have h := Nat.mod_add_div a (2 ^ k)
  rw [Nat.mul_comm]
  omega

theorem roundUpPage_spec (a k : Nat) :
    roundUpPage a k % 2 ^ k = 0 ∧ a ≤ roundUpPage a k ∧ roundUpPage a k < a + 2 ^ k := by
  have hp : 0 < 2 ^ k := Nat.pos_pow_of_pos k (by norm_num)
  have hmul : roundUpPage a k % 2 ^ k = 0 := by
    rw [roundUpPage, alignDownPage_eq_div_mul]
    exact Nat.mul_mod_left _ _
  have hmod : (a + 2 ^ k - 1) % 2 ^ k < 2 ^ k := Nat.mod_lt _ hp
  refine ⟨hmul, ?_, ?_⟩
  · rw [roundUpPage, alignDownPage_eq_sub_mod]
    omega
  · rw [roundUpPage, alignDownPage_eq_sub_mod]
    omega

/-- Claim C8: the aligned start address is the input start rounded up to
the host page size `2 ^ k` (it is page aligned, at least the input start
and less than one page above it); the aligned size is the remaining
extent, truncated down to a page multiple, and is 0 when the rounded-up
start exceeds the end of the input region. -/
theorem claim_c8 (sec : MemSection) (k : Nat) :
    (aehd_align_section sec k).1 % 2 ^ k = 0 ∧
    sec.offset_within_address_space ≤ (aehd_align_section sec k).1 ∧
    (aehd_align_section sec k).1 < sec.offset_within_address_space + 2 ^ k ∧
    (sec.offset_within_address_space + sec.size < (aehd_align_section sec k).1 →
      (aehd_align_section sec k).2 = 0) ∧
    ((aehd_align_section sec k).1 ≤ sec.offset_within_address_space + sec.size →
      (aehd_align_section sec k).2 =
        (sec.offset_within_address_space + sec.size - (aehd_align_section sec k).1) -
          (sec.offset_within_address_space + sec.size - (aehd_align_section sec k).1)
            % 2 ^ k) := by
  obtain ⟨h0, h1, h2⟩ := roundUpPage_spec sec.offset_within_address_space k
  unfold aehd_align_section
  set a := sec.offset_within_address_space with ha
  set sz := sec.size with hsz
  set r := roundUpPage a k with hr
  by_cases hgt : r - a > sz
  · rw [if_pos hgt]
    refine ⟨h0, h1, h2, fun _ => rfl, fun hle => ?_⟩
    omega
  · rw [if_neg hgt]
    refine ⟨h0, h1, h2, fun hlt => ?_, fun _ => ?_⟩
    · omega
    · rw [alignDownPage_eq_sub_mod]
      have hx : sz - (r - a) = a + sz - r := by omega
      rw [hx]

/-- Witness for C8 at the concrete unaligned section `secUnal` with 4 KiB
pages: the aligned region is empty. -/
theorem claim_c8_witness :
    aehd_align_section secUnal 12 = (4096, 0) ∧
    (aehd_align_section secUnal 12).1 ≤
      secUnal.offset_within_address_space + secUnal.size ∧
    (aehd_align_section secUnal 12).2 =
      (secUnal.offset_within_address_space + secUnal.size -
          (aehd_align_section secUnal 12).1) -
        (secUnal.offset_within_address_space + secUnal.size -
            (aehd_align_section secUnal 12).1) % 2 ^ 12 := by
  refine ⟨by decide, by decide, ?_⟩
  exact (claim_c8 secUnal 12).2.2.2.2 (by decide)

/-! Section: the two-phase set-memory-region sequence (claims C1 and C10) -/

/-- Counterexample to claim C1: registering a slot whose new flags are
read-only (here `slotRO`, non-empty with `AEHD_MEM_READONLY` set) issues
two set-memory-region control calls, not the single call the claim
requires for that case. -/
theorem claim_c1_counterexample :
    slotRO.memory_size ≠ 0 ∧ slotRO.flags &&& AEHD_MEM_READONLY ≠ 0 ∧
    (aehd_set_user_memory_region 0 slotRO (fun _ => 0)).1.length ≠ 1 := by
  decide

/-- Claim C1 as amended: `aehd_set_user_memory_region` issues the
two-phase sequence (a zero-size call followed by a full-size call) when
and only when the slot is non-empty and its *new* flags contain the
read-only bit; in every other case it issues exactly one call at the
slot's full size.  All calls carry the slot id (with the address-space
id in the high bits), the guest physical address, the host address and
the new flags. -/
theorem claim_c1_amended (as_id : Nat) (slot : AEHDSlot) (ctl : Nat → Int) :
    (∀ c ∈ (aehd_set_user_memory_region as_id slot ctl).1,
        c.slot = slot.slot ||| (as_id <<< 16) ∧ c.guest_phys_addr = slot.start_addr ∧
        c.userspace_addr = slot.ram ∧ c.flags = slot.flags) ∧
    (slot.memory_size ≠ 0 ∧ slot.flags &&& AEHD_MEM_READONLY ≠ 0 →
      (aehd_set_user_memory_region as_id slot ctl).1.map MemRegionCall.memory_size
        = [0, slot.memory_size]) ∧
    (¬(slot.memory_size ≠ 0 ∧ slot.flags &&& AEHD_MEM_READONLY ≠ 0) →
      (aehd_set_user_memory_region as_id slot ctl).1.map MemRegionCall.memory_size
        = [slot.memory_size]) := by
  unfold aehd_set_user_memory_region
  by_cases h : slot.memory_size ≠ 0 ∧ slot.flags &&& AEHD_MEM_READONLY ≠ 0
  · rw [if_pos h]
    refine ⟨?_, fun _ => rfl, fun hc => absurd h hc⟩
    intro c hc
    simp only [List.mem_cons, List.not_mem_nil, or_false] at hc
    rcases hc with rfl | rfl <;> exact ⟨rfl, rfl, rfl, rfl⟩
  · rw [if_neg h]
    refine ⟨?_, fun hc => absurd hc h, fun _ => rfl⟩
    intro c hc
    simp only [List.mem_cons, List.not_mem_nil, or_false] at hc
    subst hc
    exact ⟨rfl, rfl, rfl, rfl⟩

/-- Witness for the amended C1 at `slotRO`: the two-phase case. -/
theorem claim_c1_amended_witness :
    (slotRO.memory_size ≠ 0 ∧ slotRO.flags &&& AEHD_MEM_READONLY ≠ 0) ∧
    (aehd_set_user_memory_region 0 slotRO (fun _ => 0)).1.map MemRegionCall.memory_size
      = [0, slotRO.memory_size] :=
  ⟨by decide, (claim_c1_amended 0 slotRO (fun _ => 0)).2.1 (by decide)⟩

/-- Claim C10: on the two-phase path the function's return value is the
result of the second (full-size) control call only — the first (zero-size)
call's result is discarded, whatever it was. -/
theorem claim_c10 (as_id : Nat) (slot : AEHDSlot) (ctl : Nat → Int)
    (h1 : slot.memory_size ≠ 0) (h2 : slot.flags &&& AEHD_MEM_READONLY ≠ 0) :
    (aehd_set_user_memory_region as_id slot ctl).1.length = 2 ∧
    (aehd_set_user_memory_region as_id slot ctl).2 = ctl 1 ∧
    (∀ ctl' : Nat → Int, ctl' 1 = ctl 1 →
      (aehd_set_user_memory_region as_id slot ctl').2 =
        (aehd_set_user_memory_region as_id slot ctl).2) := by
  unfold aehd_set_user_memory_region
  rw [if_pos ⟨h1, h2⟩]
  refine ⟨rfl, rfl, fun ctl' h => ?_⟩
  rw [if_pos ⟨h1, h2⟩]
  exact h

/-- Witness for C10: with hypervisor answers `ctlW` whose first call
fails with `-EFAULT`, the function still returns the second call's 0. -/
theorem claim_c10_witness :
    slotRO.memory_size ≠ 0 ∧ slotRO.flags &&& AEHD_MEM_READONLY ≠ 0 ∧
    ctlW 0 = -EFAULT ∧
    (aehd_set_user_memory_region 0 slotRO ctlW).2 = 0 := by
  refine ⟨by decide, by decide, by decide, ?_⟩
  rw [(claim_c10 0 slotRO ctlW (by decide) (by decide)).2.1]
  decide

/-! Section: dirty-flag contract (claim C6) -/

/-- Claim C6: one `do_aehd_cpu_synchronize_state` marks the vCPU dirty and
pulls registers exactly when the flag was clear; a second call in a row is
a complete no-op (no pull, no state change), so two calls pull at most
once. -/
theorem claim_c6 (c : VcpuSyncState) :
    (do_aehd_cpu_synchronize_state c).vcpu_dirty = true ∧
    (do_aehd_cpu_synchronize_state c).pulls
      = c.pulls + (if c.vcpu_dirty then 0 else 1) ∧
    do_aehd_cpu_synchronize_state (do_aehd_cpu_synchronize_state c)
      = do_aehd_cpu_synchronize_state c := by
  unfold do_aehd_cpu_synchronize_state
  by_cases h : c.vcpu_dirty <;> simp [h]

/-! Section: transport retry policy (claim C9) -/

/-- Claim C9: the create-VM path reissues its control call exactly while
the result is the interrupted error `-EINTR` and stops at the first other
result; the transport never maps any OS outcome to `-EINTR`, so with the
transport attached the create-VM call is issued exactly once; every other
control-call path performs a single attempt and returns the mapped
result. -/
theorem claim_c9 :
    (∀ (r : Int) (rs : List Int), r ≠ -EINTR →
      aehd_create_vm_loop (r :: rs) = some (r, 1)) ∧
    (∀ (r : Int) (rs : List Int), r = -EINTR →
      aehd_create_vm_loop (r :: rs)
        = (aehd_create_vm_loop rs).map (fun p => (p.1, p.2 + 1))) ∧
    (∀ o : IoOutcome, aehd_ioctl_result o ≠ -EINTR) ∧
    (∀ (o : IoOutcome) (os : List IoOutcome),
      aehd_create_vm_loop ((o :: os).map aehd_ioctl_result)
        = some (aehd_ioctl_result o, 1)) ∧
    (∀ o : IoOutcome, aehd_single_ioctl o = (aehd_ioctl_result o, 1)) := by
  have hne : ∀ o : IoOutcome, aehd_ioctl_result o ≠ -EINTR := by
    intro o
    cases o <;> simp [aehd_ioctl_result, EINTR, E2BIG, EAGAIN, EFAULT]
  refine ⟨?_, ?_, hne, ?_, fun _ => rfl⟩
  · intro r rs h
    simp only [aehd_create_vm_loop]
    rw [if_neg h]
  · intro r rs h
    simp only [aehd_create_vm_loop]
    rw [if_pos h]
  · intro o os
    rw [List.map_cons]
    simp only [aehd_create_vm_loop]
    rw [if_neg (hne o)]

/-- Witness for C9: one successful outcome and one `ERROR_RETRY` outcome
each produce a single attempt returning the mapped result. -/
theorem claim_c9_witness :
    ((0 : Int) ≠ -EINTR) ∧
    aehd_create_vm_loop [(0 : Int)] = some (0, 1) ∧
    aehd_create_vm_loop ([IoOutcome.errRetry].map aehd_ioctl_result)
      = some (-EAGAIN, 1) := by
  refine ⟨by decide, claim_c9.1 0 [] (by decide), ?_⟩
  have h := claim_c9.2.2.2.1 IoOutcome.errRetry []
  simpa using h

/-! Section: dispatch loop (claim C5) -/

theorem cpu_exec_loop_ne_zero :
    ∀ (its : List RunIter) (d d' : Bool) (r : Int) (fx : List CpuEffect),
      aehd_cpu_exec_loop d its = some (d', r, fx) → r ≠ 0 := by
  intro its
  induction its with
  | nil =>
    intro d d' r fx h
    simp [aehd_cpu_exec_loop] at h
  | cons it rest ih =>
    intro d d' r fx h
    simp only [aehd_cpu_exec_loop] at h
    by_cases h0 : (aehd_run_step d it).2.1 = 0
    · rw [if_pos h0] at h
      rcases Option.map_eq_some'.1 h with ⟨⟨d2, r2, fx2⟩, hq, heq⟩
      have hr : r2 = r := congrArg (fun t => t.2.1) heq
      exact hr ▸ ih _ _ _ _ hq
    · rw [if_neg h0] at h
      have hr : (aehd_run_step d it).2.1 = r :=
        congrArg (fun t => t.2.1) (Option.some_inj.1 h)
      exact hr ▸ h0

/-- Claim C5: the dispatch loop iterates again exactly when the
per-iteration result is 0; IO exits, MMIO exits and the Crash system
event produce 0 (and loop); IrqWindowOpen, Intr, Shutdown and the
Shutdown/Reset system events produce the interrupted result (nonzero,
exiting the loop); the first nonzero result is returned to the caller,
and a negative result additionally dumps the CPU state and stops the VM
before returning. -/
theorem claim_c5 (d : Bool) (it : RunIter) (rest : List RunIter) :
    ((aehd_run_step d it).2.1 = 0 →
      aehd_cpu_exec_loop d (it :: rest) =
        (aehd_cpu_exec_loop (aehd_run_step d it).1 rest).map
          (fun q => (q.1, q.2.1, (aehd_run_step d it).2.2 ++ q.2.2))) ∧
    ((aehd_run_step d it).2.1 ≠ 0 →
      aehd_cpu_exec_loop d (it :: rest) = some (aehd_run_step d it)) ∧
    (it.run_ret = 0 →
      ((it.reason = ExitReason.exitIo ∨ it.reason = ExitReason.exitMmio ∨
          it.reason = ExitReason.exitSystemEvent SysEventType.sysCrash) →
        (aehd_run_step d it).2.1 = 0) ∧
      ((it.reason = ExitReason.exitIrqWindowOpen ∨ it.reason = ExitReason.exitIntr ∨
          it.reason = ExitReason.exitShutdown ∨
          it.reason = ExitReason.exitSystemEvent SysEventType.sysShutdown ∨
          it.reason = ExitReason.exitSystemEvent SysEventType.sysReset) →
        (aehd_run_step d it).2.1 = EXCP_INTERRUPT ∧ EXCP_INTERRUPT ≠ 0)) ∧
    (∀ (its : List RunIter) (d₀ d' : Bool) (r : Int) (fx : List CpuEffect),
      aehd_cpu_exec_loop d₀ its = some (d', r, fx) →
      r ≠ 0 ∧
      aehd_cpu_exec false d₀ its = some (d', r,
        fx ++ (if r < 0 then [CpuEffect.dumpState, CpuEffect.vmStop] else []))) := by
  refine ⟨?_, ?_, ?_, ?_⟩
  · intro h0
    simp only [aehd_cpu_exec_loop]
    rw [if_pos h0]
  · intro h0
    simp only [aehd_cpu_exec_loop]
    rw [if_neg h0]
  · intro hrun
    have hneg : ¬(it.run_ret < 0) := by rw [hrun]; decide
    constructor
    · intro hcase
      rcases hcase with h | h | h <;>
        simp [aehd_run_step, if_neg hneg, h]
    · intro hcase
      rcases hcase with h | h | h | h | h <;>
        simp [aehd_run_step, if_neg hneg, h, EXCP_INTERRUPT]
  · intro its d₀ d' r fx h
    refine ⟨cpu_exec_loop_ne_zero its d₀ d' r fx h, ?_⟩
    simp [aehd_cpu_exec, h]

/-- Witness for C5 on a two-iteration trace (an IO exit, then an
interrupt exit): the loop iterates past the IO exit and returns the
interrupted result; no dump or stop happens on the nonnegative result. -/
theorem claim_c5_witness :
    itIo.run_ret = 0 ∧
    (aehd_run_step false itIo).2.1 = 0 ∧
    aehd_cpu_exec_loop false [itIo, itIntr]
      = some (false, EXCP_INTERRUPT, [CpuEffect.ioAccess]) ∧
    EXCP_INTERRUPT ≠ 0 ∧
    aehd_cpu_exec false false [itIo, itIntr]
      = some (false, EXCP_INTERRUPT, [CpuEffect.ioAccess]) := by
  have hloop : aehd_cpu_exec_loop false [itIo, itIntr]
      = some (false, EXCP_INTERRUPT, [CpuEffect.ioAccess]) := by decide
  have h := (claim_c5 false itIo [itIntr]).2.2.2 [itIo, itIntr] false false
    EXCP_INTERRUPT [CpuEffect.ioAccess] hloop
  refine ⟨by decide, by decide, hloop, h.1, ?_⟩
  have h2 := h.2
  norm_num [EXCP_INTERRUPT] at h2 ⊢
  exact h2

/-! Section: invariance facts about the routing-table operations -/

theorem release_virq_events (s : RState) (v : Nat) :
    (aehd_irqchip_release_virq s v).events = s.events := rfl

theorem release_virq_hashtab (s : RState) (v : Nat) :
    (aehd_irqchip_release_virq s v).msi_hashtab = s.msi_hashtab := rfl

theorem release_virq_gsi_count (s : RState) (v : Nat) :
    (aehd_irqchip_release_virq s v).gsi_count = s.gsi_count := rfl

theorem release_virq_bitmap (s : RState) (v : Nat) :
    (aehd_irqchip_release_virq s v).used_gsi_bitmap = s.used_gsi_bitmap.erase v := rfl

theorem release_virq_entries (s : RState) (v : Nat) :
    (aehd_irqchip_release_virq s v).entries = releaseScan v s.entries := rfl

theorem foldRelease_events :
    ∀ (l : List AEHDMSIRoute) (s : RState),
      (l.foldl (fun acc r => aehd_irqchip_release_virq acc r.kroute.gsi) s).events
        = s.events := by
  intro l
  induction l with
  | nil => intro s; rfl
  | cons r t ih => intro s; exact (ih _).trans rfl

theorem foldRelease_hashtab :
    ∀ (l : List AEHDMSIRoute) (s : RState),
      (l.foldl (fun acc r => aehd_irqchip_release_virq acc r.kroute.gsi) s).msi_hashtab
        = s.msi_hashtab := by
  intro l
  induction l with
  | nil => intro s; rfl
  | cons r t ih => intro s; exact (ih _).trans rfl

theorem foldRelease_gsi_count :
    ∀ (l : List AEHDMSIRoute) (s : RState),
      (l.foldl (fun acc r => aehd_irqchip_release_virq acc r.kroute.gsi) s).gsi_count
        = s.gsi_count := by
  intro l
  induction l with
  | nil => intro s; rfl
  | cons r t ih => intro s; exact (ih _).trans rfl

theorem flushBucket_events (s : RState) (h : Nat) :
    (flushBucket s h).events = s.events := by
  simp only [flushBucket]
  exact foldRelease_events _ _

theorem flushBucket_gsi_count (s : RState) (h : Nat) :
    (flushBucket s h).gsi_count = s.gsi_count := by
  simp only [flushBucket]
  exact foldRelease_gsi_count _ _

theorem flushBucket_hashtab (s : RState) (h h' : Nat) :
    (flushBucket s h).msi_hashtab h'
      = if h' = h then [] else s.msi_hashtab h' := by
  simp only [flushBucket]
  by_cases hh : h' = h
  · simp [hh]
  · simp [hh, foldRelease_hashtab]

theorem flush_events (s : RState) :
    (aehd_flush_dynamic_msi_routes s).events = s.events := by
  simp only [aehd_flush_dynamic_msi_routes]
  generalize List.range AEHD_MSI_HASHTAB_SIZE = hs
  induction hs generalizing s with
  | nil => rfl
  | cons h t ih =>
    simp only [List.foldl_cons]
    exact (ih _).trans (flushBucket_events s h)

theorem flush_gsi_count (s : RState) :
    (aehd_flush_dynamic_msi_routes s).gsi_count = s.gsi_count := by
  simp only [aehd_flush_dynamic_msi_routes]
  generalize List.range AEHD_MSI_HASHTAB_SIZE = hs
  induction hs generalizing s with
  | nil => rfl
  | cons h t ih =>
    simp only [List.foldl_cons]
    exact (ih _).trans (flushBucket_gsi_count s h)

theorem foldFlush_hashtab_empty :
    ∀ (hs : List Nat) (s : RState) (h : Nat),
      (h ∈ hs ∨ s.msi_hashtab h = []) →
      (hs.foldl flushBucket s).msi_hashtab h = [] := by
  intro hs
  induction hs with
  | nil =>
    intro s h hmem
    rcases hmem with h' | h'
    · exact absurd h' (List.not_mem_nil _)
    · exact h'
  | cons h0 t ih =>
    intro s h hmem
    simp only [List.foldl_cons]
    apply ih
    by_cases hh : h = h0
    · right
      rw [flushBucket_hashtab]
      simp [hh]
    · rcases hmem with hm | hm
      · rcases List.mem_cons.1 hm with he | ht
        · exact absurd he hh
        · exact Or.inl ht
      · right
        rw [flushBucket_hashtab]
        simp [hh, hm]

theorem flush_hashtab_empty (s : RState) (h : Nat) (hlt : h < AEHD_MSI_HASHTAB_SIZE) :
    (aehd_flush_dynamic_msi_routes s).msi_hashtab h = [] := by
  simp only [aehd_flush_dynamic_msi_routes]
  exact foldFlush_hashtab_empty _ s h (Or.inl (List.mem_range.2 hlt))

theorem hash_lt (d : Nat) : aehd_hash_msi d < AEHD_MSI_HASHTAB_SIZE := by
  have h : aehd_hash_msi d ≤ 0xff := Nat.and_le_right
  simp only [AEHD_MSI_HASHTAB_SIZE]
  omega

set_option maxRecDepth 4096 in
theorem get_virq_fst (s : RState) :
    (aehd_irqchip_get_virq s).1
      = if s.entries.length = s.gsi_count then aehd_flush_dynamic_msi_routes s
        else s := by
  simp only [aehd_irqchip_get_virq]
  by_cases hcap : s.entries.length = s.gsi_count
  · simp only [if_pos hcap]
    split <;> rfl
  · simp only [if_neg hcap]
    split <;> rfl

theorem get_virq_events (s : RState) :
    (aehd_irqchip_get_virq s).1.events = s.events := by
  rw [get_virq_fst]
  split
  · exact flush_events s
  · rfl

theorem get_virq_gsi_count (s : RState) :
    (aehd_irqchip_get_virq s).1.gsi_count = s.gsi_count := by
  rw [get_virq_fst]
  split
  · exact flush_gsi_count s
  · rfl

/-- Reduction of `aehd_irqchip_send_msi` on a cache miss with an
available GSI `g`. -/
theorem send_msi_miss (s : RState) (msg : MSIMessage) (g : Nat)
    (hmiss : aehd_lookup_msi_route s msg = none)
    (hvirq : (aehd_irqchip_get_virq s).2 = Int.ofNat g) :
    aehd_irqchip_send_msi s msg =
      aehd_set_irq
        { aehd_irqchip_commit_routes
            (aehd_add_routing_entry (aehd_irqchip_get_virq s).1 (msiEntry g msg)) with
          msi_hashtab := fun h =>
            if h = aehd_hash_msi msg.data then
              (aehd_irqchip_commit_routes
                (aehd_add_routing_entry (aehd_irqchip_get_virq s).1
                  (msiEntry g msg))).msi_hashtab h ++ [⟨msiEntry g msg⟩]
            else
              (aehd_irqchip_commit_routes
                (aehd_add_routing_entry (aehd_irqchip_get_virq s).1
                  (msiEntry g msg))).msi_hashtab h }
        g 1 := by
  have hern : ¬(Int.ofNat g < 0) := not_lt.2 (Int.ofNat_nonneg g)
  have htn : (Int.ofNat g).toNat = g := rfl
  simp only [aehd_irqchip_send_msi, hmiss, hvirq, if_neg hern, htn, msiEntry]

/-- Claim C2: sending the same MSI message twice from a state where it is
not cached and a GSI `g` is available performs, on the first call, exactly
one routing-table commit followed by one signal call at `g`, and on the
second call (a cache hit) no allocation, no commit and no other state
change — only one more signal call at the same `g`. -/
theorem claim_c2 (s : RState) (msg : MSIMessage) (g : Nat)
    (hmiss : aehd_lookup_msi_route s msg = none)
    (hvirq : (aehd_irqchip_get_virq s).2 = Int.ofNat g) :
    (aehd_irqchip_send_msi s msg).1.events
      = s.events ++ [REvent.commit, REvent.setIrq g 1] ∧
    aehd_irqchip_send_msi (aehd_irqchip_send_msi s msg).1 msg
      = ({ (aehd_irqchip_send_msi s msg).1 with
           events := (aehd_irqchip_send_msi s msg).1.events ++ [REvent.setIrq g 1] },
         0) := by
  have hred := send_msi_miss s msg g hmiss hvirq
  constructor
  · rw [hred]
    show (aehd_irqchip_commit_routes
        (aehd_add_routing_entry (aehd_irqchip_get_virq s).1 (msiEntry g msg))).events
        ++ [REvent.setIrq g 1] = _
    simp only [aehd_irqchip_commit_routes, aehd_add_routing_entry, set_gsi]
    rw [show (({ (aehd_irqchip_get_virq s).1 with
          entries := (aehd_irqchip_get_virq s).1.entries ++ [msiEntry g msg] }
          : RState)).events = (aehd_irqchip_get_virq s).1.events from rfl]
    rw [get_virq_events]
    simp
  · rw [hred]
    set s3 := aehd_irqchip_commit_routes
      (aehd_add_routing_entry (aehd_irqchip_get_virq s).1 (msiEntry g msg)) with hs3
    set s4 : RState := { s3 with msi_hashtab := fun h =>
      (if h = aehd_hash_msi msg.data then s3.msi_hashtab h ++ [⟨msiEntry g msg⟩]
       else s3.msi_hashtab h) } with hs4
    have hmatch : msiRouteMatches msg ⟨msiEntry g msg⟩ = true := by
      simp [msiRouteMatches, msiEntry, msiPayload]
    have hs3tab : s3.msi_hashtab = (aehd_irqchip_get_virq s).1.msi_hashtab := by
      rw [hs3]
      rfl
    have hfind : (s3.msi_hashtab (aehd_hash_msi msg.data)).find? (msiRouteMatches msg)
        = none := by
      rw [hs3tab, get_virq_fst]
      by_cases hcap : s.entries.length = s.gsi_count
      · rw [if_pos hcap, flush_hashtab_empty _ _ (hash_lt msg.data)]
        rfl
      · rw [if_neg hcap]
        exact hmiss
    have hbucket : s4.msi_hashtab (aehd_hash_msi msg.data)
        = s3.msi_hashtab (aehd_hash_msi msg.data) ++ [⟨msiEntry g msg⟩] := by
      rw [hs4]
      simp
    have hlook : aehd_lookup_msi_route (aehd_set_irq s4 g 1).1 msg
        = some ⟨msiEntry g msg⟩ := by
      show (s4.msi_hashtab (aehd_hash_msi msg.data)).find? (msiRouteMatches msg)
        = some ⟨msiEntry g msg⟩
      rw [hbucket, List.find?_append, hfind]
      simp [List.find?, hmatch]
    simp only [aehd_irqchip_send_msi, hlook]
    rfl

/-- Witness for C2 from the empty 4-GSI routing state with message
`msgA`, which allocates GSI 0. -/
theorem claim_c2_witness :
    aehd_lookup_msi_route (initState 4) msgA = none ∧
    (aehd_irqchip_get_virq (initState 4)).2 = Int.ofNat 0 ∧
    (aehd_irqchip_send_msi (initState 4) msgA).1.events
      = (initState 4).events ++ [REvent.commit, REvent.setIrq 0 1] ∧
    aehd_irqchip_send_msi (aehd_irqchip_send_msi (initState 4) msgA).1 msgA
      = ({ (aehd_irqchip_send_msi (initState 4) msgA).1 with
           events := (aehd_irqchip_send_msi (initState 4) msgA).1.events
             ++ [REvent.setIrq 0 1] }, 0) := by
  have h := claim_c2 (initState 4) msgA 0 (by rfl) (by decide)
  exact ⟨rfl, by decide, h.1, h.2⟩

/-! Section: counting routing entries per GSI -/

theorem countGsi_nil (g : Nat) : countGsi [] g = 0 := rfl

theorem countGsi_cons (e : RouteEntry) (l : List RouteEntry) (g : Nat) :
    countGsi (e :: l) g = (if e.gsi = g then 1 else 0) + countGsi l g := by
  by_cases h : e.gsi = g
  · simp [countGsi, List.filter_cons, h, Nat.add_comm]
  · simp [countGsi, List.filter_cons, h]

theorem countGsi_append (l1 l2 : List RouteEntry) (g : Nat) :
    countGsi (l1 ++ l2) g = countGsi l1 g + countGsi l2 g := by
  simp [countGsi, List.filter_append]

theorem countGsi_singleton (e : RouteEntry) (g : Nat) :
    countGsi [e] g = if e.gsi = g then 1 else 0 := by
  rw [countGsi_cons, countGsi_nil]
  omega

theorem countGsi_eq_zero_iff (l : List RouteEntry) (g : Nat) :
    countGsi l g = 0 ↔ ∀ e ∈ l, e.gsi ≠ g := by
  induction l with
  | nil => simp [countGsi_nil]
  | cons e t ih =>
    rw [countGsi_cons]
    by_cases h : e.gsi = g
    · simp [h]
    · simp [h, ih]

theorem countGsi_pos (l : List RouteEntry) (g : Nat) (h : 0 < countGsi l g) :
    ∃ e ∈ l, e.gsi = g := by
  by_contra hc
  push_neg at hc
  rw [(countGsi_eq_zero_iff l g).2 hc] at h
  exact absurd h (by omega)

theorem countGsi_eq_count_map (l : List RouteEntry) (g : Nat) :
    countGsi l g = (l.map RouteEntry.gsi).count g := by
  induction l with
  | nil => rfl
  | cons e t ih =>
    rw [countGsi_cons, List.map_cons, List.count_cons, ih]
    by_cases hg : e.gsi = g <;> simp [hg, Nat.add_comm]

theorem atMostOne_of_nodup (l : List RouteEntry)
    (h : (l.map RouteEntry.gsi).Nodup) : AtMostOne l := by
  intro g
  have hcount : (l.map RouteEntry.gsi).count g ≤ 1 := List.nodup_iff_count_le_one.1 h g
  rw [countGsi_eq_count_map]
  omega

/-! Section: the swap-with-last removal scan of release_virq -/

theorem getLast?_decomp {α : Type} {l : List α} {a : α} (h : l.getLast? = some a) :
    l = l.dropLast ++ [a] := by
  have hne : l ≠ [] := by
    intro he
    rw [he] at h
    simp at h
  have h2 := List.getLast?_eq_getLast l hne
  rw [h2] at h
  have ha : l.getLast hne = a := by injection h
  rw [← ha]
  exact (List.dropLast_append_getLast hne).symm

theorem releaseScan_subset (virq : Nat) (l : List RouteEntry) :
    ∀ e ∈ releaseScan virq l, e ∈ l := by
  induction l using releaseScan.induct virq with
  | case1 => simp [releaseScan]
  | case2 e rest h hlast => simp [releaseScan, h, hlast]
  | case3 e rest h lastE hlast ih =>
    intro x hx
    rw [releaseScan, if_pos h, hlast] at hx
    rcases List.mem_cons.1 hx with rfl | hx
    · have : x ∈ rest := by
        rw [getLast?_decomp hlast]
        exact List.mem_append.2 (Or.inr (List.mem_singleton.2 rfl))
      exact List.mem_cons_of_mem e this
    · exact List.mem_cons_of_mem e (List.dropLast_subset rest (ih x hx))
  | case4 e rest h ih =>
    intro x hx
    rw [releaseScan, if_neg h] at hx
    rcases List.mem_cons.1 hx with rfl | hx
    · exact List.mem_cons_self x rest
    · exact List.mem_cons_of_mem e (ih x hx)

theorem releaseScan_count_le (virq g : Nat) (l : List RouteEntry) :
    countGsi (releaseScan virq l) g ≤ countGsi l g := by
  induction l using releaseScan.induct virq with
  | case1 => simp [releaseScan]
  | case2 e rest h hlast =>
    rw [releaseScan, if_pos h, hlast]
    simp [countGsi_nil]
  | case3 e rest h lastE hlast ih =>
    rw [releaseScan, if_pos h, hlast]
    have hdecomp : countGsi rest g
        = countGsi rest.dropLast g + (if lastE.gsi = g then 1 else 0) := by
      conv_lhs => rw [getLast?_decomp hlast]
      rw [countGsi_append, countGsi_singleton]
    rw [countGsi_cons, countGsi_cons]
    omega
  | case4 e rest h ih =>
    rw [releaseScan, if_neg h, countGsi_cons, countGsi_cons]
    omega

theorem releaseScan_count_self (virq : Nat) (l : List RouteEntry)
    (h1 : countGsi l virq ≤ 1) :
    countGsi (releaseScan virq l) virq = 0 := by
  induction l using releaseScan.induct virq with
  | case1 => simp [releaseScan, countGsi_nil]
  | case2 e rest h hlast =>
    rw [releaseScan, if_pos h, hlast]
    exact countGsi_nil virq
  | case3 e rest h lastE hlast ih =>
    rw [releaseScan, if_pos h, hlast]
    rw [countGsi_cons] at h1
    rw [if_pos h] at h1
    have hrest : countGsi rest virq = 0 := by omega
    have hdecomp : countGsi rest virq
        = countGsi rest.dropLast virq + (if lastE.gsi = virq then 1 else 0) := by
      conv_lhs => rw [getLast?_decomp hlast]
      rw [countGsi_append, countGsi_singleton]
    have hlastne : ¬(lastE.gsi = virq) := by
      by_cases hl : lastE.gsi = virq
      · rw [hl] at hdecomp
        simp at hdecomp
        omega
      · exact hl
    have hdl : countGsi rest.dropLast virq = 0 := by
      rw [if_neg hlastne] at hdecomp
      omega
    rw [countGsi_cons, if_neg hlastne]
    have hle := releaseScan_count_le virq virq rest.dropLast
    omega
  | case4 e rest h ih =>
    rw [releaseScan, if_neg h, countGsi_cons, if_neg h]
    rw [countGsi_cons, if_neg h] at h1
    have := ih (by omega)
    omega

theorem releaseScan_atMostOne (virq : Nat) (l : List RouteEntry)
    (h : AtMostOne l) : AtMostOne (releaseScan virq l) :=
  fun g => le_trans (releaseScan_count_le virq g l) (h g)

/-! Section: invariant preservation through release and flush -/

theorem release_atMostOne (s : RState) (v : Nat) (h : AtMostOne s.entries) :
    AtMostOne (aehd_irqchip_release_virq s v).entries := by
  rw [release_virq_entries]
  exact releaseScan_atMostOne v s.entries h

theorem fullInv_release (s : RState) (v : Nat) (h : FullInv s) :
    FullInv (aehd_irqchip_release_virq s v) := by
  obtain ⟨hmem, hone⟩ := h
  constructor
  · intro e he
    rw [release_virq_entries] at he
    have hel : e ∈ s.entries := releaseScan_subset v s.entries e he
    have h0 : countGsi (releaseScan v s.entries) v = 0 :=
      releaseScan_count_self v s.entries (hone v)
    have hnv : e.gsi ≠ v := (countGsi_eq_zero_iff _ v).1 h0 e he
    rw [release_virq_bitmap, release_virq_gsi_count]
    exact ⟨Finset.mem_erase.2 ⟨hnv, (hmem e hel).1⟩, (hmem e hel).2⟩
  · exact release_atMostOne s v hone

theorem foldRelease_count_le (l : List AEHDMSIRoute) :
    ∀ (s : RState) (g : Nat),
      countGsi ((l.foldl (fun acc r => aehd_irqchip_release_virq acc r.kroute.gsi)
        s).entries) g ≤ countGsi s.entries g := by
  induction l with
  | nil => intro s g; exact le_refl _
  | cons r t ih =>
    intro s g
    simp only [List.foldl_cons]
    refine le_trans (ih _ g) ?_
    rw [release_virq_entries]
    exact releaseScan_count_le _ g _

theorem foldRelease_not_mem (l : List AEHDMSIRoute) :
    ∀ (s : RState) (g : Nat), g ∉ s.used_gsi_bitmap →
      g ∉ (l.foldl (fun acc r => aehd_irqchip_release_virq acc r.kroute.gsi)
        s).used_gsi_bitmap := by
  induction l with
  | nil => intro s g h; exact h
  | cons r t ih =>
    intro s g h
    simp only [List.foldl_cons]
    apply ih
    rw [release_virq_bitmap]
    intro hc
    exact h (Finset.mem_of_mem_erase hc)

theorem foldRelease_atMostOne (l : List AEHDMSIRoute) :
    ∀ s : RState, AtMostOne s.entries →
      AtMostOne ((l.foldl (fun acc r => aehd_irqchip_release_virq acc r.kroute.gsi)
        s).entries) := by
  induction l with
  | nil => intro s h; exact h
  | cons r t ih =>
    intro s h
    simp only [List.foldl_cons]
    exact ih _ (release_atMostOne s _ h)

theorem foldRelease_fullInv (l : List AEHDMSIRoute) :
    ∀ s : RState, FullInv s →
      FullInv (l.foldl (fun acc r => aehd_irqchip_release_virq acc r.kroute.gsi) s) := by
  induction l with
  | nil => intro s h; exact h
  | cons r t ih =>
    intro s h
    simp only [List.foldl_cons]
    exact ih _ (fullInv_release s _ h)

theorem foldRelease_released (l : List AEHDMSIRoute) :
    ∀ s : RState, AtMostOne s.entries → ∀ r ∈ l,
      countGsi ((l.foldl (fun acc r => aehd_irqchip_release_virq acc r.kroute.gsi)
        s).entries) r.kroute.gsi = 0 ∧
      r.kroute.gsi ∉ (l.foldl (fun acc r => aehd_irqchip_release_virq acc r.kroute.gsi)
        s).used_gsi_bitmap := by
  induction l with
  | nil =>
    intro s h1 r hr
    exact absurd hr (List.not_mem_nil r)
  | cons r0 t ih =>
    intro s h1 r hr
    simp only [List.foldl_cons]
    rcases List.mem_cons.1 hr with rfl | hrt
    · have h0 : countGsi (aehd_irqchip_release_virq s r.kroute.gsi).entries
          r.kroute.gsi = 0 := by
        rw [release_virq_entries]
        exact releaseScan_count_self _ _ (h1 _)
      have hb : r.kroute.gsi ∉
          (aehd_irqchip_release_virq s r.kroute.gsi).used_gsi_bitmap := by
        rw [release_virq_bitmap]
        exact Finset.not_mem_erase _ _
      refine ⟨?_, foldRelease_not_mem t _ _ hb⟩
      have := foldRelease_count_le t (aehd_irqchip_release_virq s r.kroute.gsi)
        r.kroute.gsi
      omega
    · exact ih _ (release_atMostOne s _ h1) r hrt

theorem flushBucket_entries (s : RState) (h : Nat) :
    (flushBucket s h).entries
      = ((s.msi_hashtab h).foldl
          (fun acc r => aehd_irqchip_release_virq acc r.kroute.gsi) s).entries := rfl

theorem flushBucket_bitmap (s : RState) (h : Nat) :
    (flushBucket s h).used_gsi_bitmap
      = ((s.msi_hashtab h).foldl
          (fun acc r => aehd_irqchip_release_virq acc r.kroute.gsi) s).used_gsi_bitmap := rfl

theorem flushBucket_count_le (s : RState) (h g : Nat) :
    countGsi (flushBucket s h).entries g ≤ countGsi s.entries g := by
  rw [flushBucket_entries]
  exact foldRelease_count_le _ s g

theorem flushBucket_not_mem (s : RState) (h g : Nat) (hg : g ∉ s.used_gsi_bitmap) :
    g ∉ (flushBucket s h).used_gsi_bitmap := by
  rw [flushBucket_bitmap]
  exact foldRelease_not_mem _ s g hg

theorem flushBucket_atMostOne (s : RState) (h : Nat) (h1 : AtMostOne s.entries) :
    AtMostOne (flushBucket s h).entries := by
  rw [flushBucket_entries]
  exact foldRelease_atMostOne _ s h1

theorem flushBucket_fullInv (s : RState) (h : Nat) (hi : FullInv s) :
    FullInv (flushBucket s h) := by
  have hfold := foldRelease_fullInv (s.msi_hashtab h) s hi
  obtain ⟨hmem, hone⟩ := hfold
  exact ⟨hmem, hone⟩

theorem flushBucket_released (s : RState) (h : Nat) (h1 : AtMostOne s.entries)
    (r : AEHDMSIRoute) (hr : r ∈ s.msi_hashtab h) :
    countGsi (flushBucket s h).entries r.kroute.gsi = 0 ∧
      r.kroute.gsi ∉ (flushBucket s h).used_gsi_bitmap := by
  have := foldRelease_released (s.msi_hashtab h) s h1 r hr
  exact ⟨this.1, this.2⟩

theorem foldFlush_count_le (hs : List Nat) :
    ∀ (s : RState) (g : Nat),
      countGsi ((hs.foldl flushBucket s).entries) g ≤ countGsi s.entries g := by
  induction hs with
  | nil => intro s g; exact le_refl _
  | cons h0 t ih =>
    intro s g
    simp only [List.foldl_cons]
    exact le_trans (ih _ g) (flushBucket_count_le s h0 g)

theorem foldFlush_not_mem (hs : List Nat) :
    ∀ (s : RState) (g : Nat), g ∉ s.used_gsi_bitmap →
      g ∉ (hs.foldl flushBucket s).used_gsi_bitmap := by
  induction hs with
  | nil => intro s g h; exact h
  | cons h0 t ih =>
    intro s g h
    simp only [List.foldl_cons]
    exact ih _ g (flushBucket_not_mem s h0 g h)

theorem foldFlush_atMostOne (hs : List Nat) :
    ∀ s : RState, AtMostOne s.entries →
      AtMostOne ((hs.foldl flushBucket s).entries) := by
  induction hs with
  | nil => intro s h; exact h
  | cons h0 t ih =>
    intro s h
    simp only [List.foldl_cons]
    exact ih _ (flushBucket_atMostOne s h0 h)

theorem foldFlush_fullInv (hs : List Nat) :
    ∀ s : RState, FullInv s → FullInv (hs.foldl flushBucket s) := by
  induction hs with
  | nil => intro s h; exact h
  | cons h0 t ih =>
    intro s h
    simp only [List.foldl_cons]
    exact ih _ (flushBucket_fullInv s h0 h)

theorem foldFlush_released (hs : List Nat) :
    ∀ s : RState, AtMostOne s.entries → ∀ h : Nat, h ∈ hs →
      ∀ r ∈ s.msi_hashtab h,
        countGsi ((hs.foldl flushBucket s).entries) r.kroute.gsi = 0 ∧
        r.kroute.gsi ∉ (hs.foldl flushBucket s).used_gsi_bitmap := by
  induction hs with
  | nil =>
    intro s h1 h hh
    exact absurd hh (List.not_mem_nil h)
  | cons h0 t ih =>
    intro s h1 h hh r hr
    simp only [List.foldl_cons]
    by_cases hh0 : h = h0
    · subst hh0
      have hrel := flushBucket_released s h h1 r hr
      refine ⟨?_, foldFlush_not_mem t _ _ hrel.2⟩
      have := foldFlush_count_le t (flushBucket s h) r.kroute.gsi
      omega
    · have hht : h ∈ t := by
        rcases List.mem_cons.1 hh with h' | h'
        · exact absurd h' hh0
        · exact h'
      have hbuck : (flushBucket s h0).msi_hashtab h = s.msi_hashtab h := by
        rw [flushBucket_hashtab, if_neg hh0]
      exact ih _ (flushBucket_atMostOne s h0 h1) h hht r (by rw [hbuck]; exact hr)

theorem flush_fullInv (s : RState) (h : FullInv s) :
    FullInv (aehd_flush_dynamic_msi_routes s) := by
  simp only [aehd_flush_dynamic_msi_routes]
  exact foldFlush_fullInv _ s h

theorem flush_released (s : RState) (h1 : AtMostOne s.entries) (h : Nat)
    (hlt : h < AEHD_MSI_HASHTAB_SIZE) (r : AEHDMSIRoute) (hr : r ∈ s.msi_hashtab h) :
    countGsi (aehd_flush_dynamic_msi_routes s).entries r.kroute.gsi = 0 ∧
      r.kroute.gsi ∉ (aehd_flush_dynamic_msi_routes s).used_gsi_bitmap := by
  simp only [aehd_flush_dynamic_msi_routes]
  exact foldFlush_released _ s h1 h (List.mem_range.2 hlt) r hr

/-! Section: the lowest-unset-bit search -/

theorem findFirstZeroFrom_spec (b : Finset Nat) :
    ∀ (fuel i : Nat),
      i ≤ findFirstZeroFrom b i fuel ∧
      findFirstZeroFrom b i fuel ≤ i + fuel ∧
      (findFirstZeroFrom b i fuel < i + fuel → findFirstZeroFrom b i fuel ∉ b) ∧
      (∀ j, i ≤ j → j < findFirstZeroFrom b i fuel → j ∈ b) ∧
      (findFirstZeroFrom b i fuel = i + fuel → ∀ j, i ≤ j → j < i + fuel → j ∈ b) := by
  intro fuel
  induction fuel with
  | zero =>
    intro i
    simp only [findFirstZeroFrom]
    refine ⟨le_refl i, by omega, fun h => absurd h (by omega), ?_, ?_⟩
    · intro j hj1 hj2
      exact absurd (Nat.lt_of_le_of_lt hj1 hj2) (Nat.lt_irrefl i)
    · intro _ j hj1 hj2
      exfalso
      omega
  | succ n ih =>
    intro i
    simp only [findFirstZeroFrom]
    by_cases hib : i ∈ b
    · rw [if_pos hib]
      obtain ⟨ih1, ih2, ih3, ih4, ih5⟩ := ih (i + 1)
      refine ⟨by omega, by omega, ?_, ?_, ?_⟩
      · intro hlt
        exact ih3 (by omega)
      · intro j hj1 hj2
        by_cases hji : j = i
        · subst hji
          exact hib
        · exact ih4 j (by omega) hj2
      · intro heq j hj1 hj2
        by_cases hji : j = i
        · subst hji
          exact hib
        · exact ih5 (by omega) j (by omega) (by omega)
    · rw [if_neg hib]
      refine ⟨le_refl i, by omega, fun _ => hib, ?_, ?_⟩
      · intro j hj1 hj2
        exact absurd (Nat.lt_of_le_of_lt hj1 hj2) (Nat.lt_irrefl i)
      · intro heq
        exfalso
        omega

theorem find_first_zero_bit_spec (b : Finset Nat) (n : Nat) :
    find_first_zero_bit b n ≤ n ∧
    (find_first_zero_bit b n < n → find_first_zero_bit b n ∉ b ∧
      ∀ j < find_first_zero_bit b n, j ∈ b) ∧
    (find_first_zero_bit b n = n → ∀ j < n, j ∈ b) := by
  obtain ⟨h1, h2, h3, h4, h5⟩ := findFirstZeroFrom_spec b n 0
  unfold find_first_zero_bit
  refine ⟨by omega, fun hlt => ⟨h3 (by omega), fun j hj => h4 j (by omega) hj⟩,
    fun heq j hj => h5 (by omega) j (by omega) (by omega)⟩

/-! Section: result characterization of the GSI allocator -/

theorem get_virq_snd_eq (s : RState) :
    (aehd_irqchip_get_virq s).2 =
      (if find_first_zero_bit (aehd_irqchip_get_virq s).1.used_gsi_bitmap s.gsi_count
          ≥ s.gsi_count
       then -ENOSPC
       else Int.ofNat (find_first_zero_bit
          (aehd_irqchip_get_virq s).1.used_gsi_bitmap s.gsi_count)) := by
  by_cases hcap : s.entries.length = s.gsi_count
  · have hfst : (aehd_irqchip_get_virq s).1 = aehd_flush_dynamic_msi_routes s := by
      rw [get_virq_fst, if_pos hcap]
    rw [hfst]
    simp only [aehd_irqchip_get_virq, if_pos hcap]
    rw [flush_gsi_count]
    by_cases hge : find_first_zero_bit
        (aehd_flush_dynamic_msi_routes s).used_gsi_bitmap s.gsi_count ≥ s.gsi_count
    · rw [if_pos hge, if_pos hge]
    · rw [if_neg hge, if_neg hge]
  · have hfst : (aehd_irqchip_get_virq s).1 = s := by
      rw [get_virq_fst, if_neg hcap]
    rw [hfst]
    simp only [aehd_irqchip_get_virq, if_neg hcap]
    by_cases hge : find_first_zero_bit s.used_gsi_bitmap s.gsi_count ≥ s.gsi_count
    · rw [if_pos hge, if_pos hge]
    · rw [if_neg hge, if_neg hge]

theorem get_virq_success (s : RState) (g : Nat)
    (hg : (aehd_irqchip_get_virq s).2 = Int.ofNat g) :
    g < s.gsi_count ∧ g ∉ (aehd_irqchip_get_virq s).1.used_gsi_bitmap ∧
      ∀ j < g, j ∈ (aehd_irqchip_get_virq s).1.used_gsi_bitmap := by
  rw [get_virq_snd_eq] at hg
  obtain ⟨hle, hlt, hfull⟩ :=
    find_first_zero_bit_spec (aehd_irqchip_get_virq s).1.used_gsi_bitmap s.gsi_count
  by_cases hge : find_first_zero_bit (aehd_irqchip_get_virq s).1.used_gsi_bitmap
      s.gsi_count ≥ s.gsi_count
  · rw [if_pos hge] at hg
    exfalso
    have : (0 : Int) ≤ Int.ofNat g := Int.ofNat_nonneg g
    rw [← hg] at this
    simp [ENOSPC] at this
  · rw [if_neg hge] at hg
    have hfg : find_first_zero_bit (aehd_irqchip_get_virq s).1.used_gsi_bitmap
        s.gsi_count = g := by
      exact Int.ofNat.inj hg
    obtain ⟨hnb, hleast⟩ := hlt (by omega)
    rw [hfg] at hnb hleast
    exact ⟨by omega, hnb, hleast⟩

theorem get_virq_enospc_iff (s : RState) :
    (aehd_irqchip_get_virq s).2 = -ENOSPC ↔
      ∀ g < s.gsi_count, g ∈ (aehd_irqchip_get_virq s).1.used_gsi_bitmap := by
  rw [get_virq_snd_eq]
  obtain ⟨hle, hlt, hfull⟩ :=
    find_first_zero_bit_spec (aehd_irqchip_get_virq s).1.used_gsi_bitmap s.gsi_count
  by_cases hge : find_first_zero_bit (aehd_irqchip_get_virq s).1.used_gsi_bitmap
      s.gsi_count ≥ s.gsi_count
  · rw [if_pos hge]
    refine ⟨fun _ => hfull (by omega), fun _ => rfl⟩
  · rw [if_neg hge]
    constructor
    · intro h
      exfalso
      have : (0 : Int) ≤ -ENOSPC := by
        rw [← h]
        exact Int.ofNat_nonneg _
      simp [ENOSPC] at this
    · intro hall
      exfalso
      obtain ⟨hnb, -⟩ := hlt (by omega)
      exact hnb (hall _ (by omega))

theorem foldRelease_entries_congr (l : List AEHDMSIRoute) :
    ∀ s s2 : RState, s.entries = s2.entries →
      (l.foldl (fun acc r => aehd_irqchip_release_virq acc r.kroute.gsi) s).entries
        = (l.foldl (fun acc r => aehd_irqchip_release_virq acc r.kroute.gsi) s2).entries := by
  induction l with
  | nil => intro s s2 h; exact h
  | cons r t ih =>
    intro s s2 h
    simp only [List.foldl_cons]
    apply ih
    rw [release_virq_entries, release_virq_entries, h]

theorem flushBucket_of_empty (s : RState) (h : Nat) (he : s.msi_hashtab h = []) :
    (flushBucket s h).entries = s.entries := by
  rw [flushBucket_entries, he]
  rfl

theorem flushBucket_entries_congr (s s2 : RState) (h0 : Nat)
    (hE : s.entries = s2.entries) (hH : s.msi_hashtab h0 = s2.msi_hashtab h0) :
    (flushBucket s h0).entries = (flushBucket s2 h0).entries := by
  rw [flushBucket_entries, flushBucket_entries, hH]
  exact foldRelease_entries_congr (s2.msi_hashtab h0) s s2 hE

theorem foldFlush_of_empty (hs : List Nat) :
    ∀ s : RState, (∀ h ∈ hs, s.msi_hashtab h = []) →
      (hs.foldl flushBucket s).entries = s.entries := by
  induction hs with
  | nil => intro s _; rfl
  | cons h0 t ih =>
    intro s hall
    simp only [List.foldl_cons]
    have he0 : s.msi_hashtab h0 = [] := hall h0 (List.mem_cons_self h0 t)
    have hallt : ∀ h ∈ t, (flushBucket s h0).msi_hashtab h = [] := by
      intro h hh
      rw [flushBucket_hashtab]
      by_cases hcase : h = h0
      · simp [hcase]
      · simp [hcase, hall h (List.mem_cons_of_mem h0 hh)]
    exact (ih (flushBucket s h0) hallt).trans (flushBucket_of_empty s h0 he0)

theorem foldFlush_single_bucket (hs : List Nat) :
    ∀ (s : RState) (h0 : Nat), h0 ∈ hs → hs.Nodup →
      (∀ h ∈ hs, h ≠ h0 → s.msi_hashtab h = []) →
      (hs.foldl flushBucket s).entries = (flushBucket s h0).entries := by
  induction hs with
  | nil =>
    intro s h0 hmem
    exact absurd hmem (List.not_mem_nil h0)
  | cons h t ih =>
    intro s h0 hmem hnd hemp
    simp only [List.foldl_cons]
    by_cases hch : h = h0
    · subst hch
      have hallt : ∀ h2 ∈ t, (flushBucket s h).msi_hashtab h2 = [] := by
        intro h2 hh2
        rw [flushBucket_hashtab]
        by_cases hc2 : h2 = h
        · simp [hc2]
        · simp [hc2, hemp h2 (List.mem_cons_of_mem h hh2) hc2]
      exact foldFlush_of_empty t (flushBucket s h) hallt
    · have heh : s.msi_hashtab h = [] := hemp h (List.mem_cons_self h t) hch
      have hmem' : h0 ∈ t := by
        rcases List.mem_cons.1 hmem with hc | hc
        · exact absurd hc.symm hch
        · exact hc
      have hemp' : ∀ h2 ∈ t, h2 ≠ h0 → (flushBucket s h).msi_hashtab h2 = [] := by
        intro h2 hh2 hne
        rw [flushBucket_hashtab]
        by_cases hc2 : h2 = h
        · simp [hc2]
        · simp [hc2, hemp h2 (List.mem_cons_of_mem h hh2) hne]
      have hstep := ih (flushBucket s h) h0 hmem' hnd.of_cons hemp'
      refine hstep.trans (flushBucket_entries_congr _ _ h0 ?_ ?_)
      · exact flushBucket_of_empty s h heh
      · rw [flushBucket_hashtab]
        exact if_neg (fun hc => hch hc.symm)

theorem flush_single_bucket (s : RState) (h0 : Nat)
    (hlt : h0 < AEHD_MSI_HASHTAB_SIZE)
    (hemp : ∀ h, h ≠ h0 → s.msi_hashtab h = []) :
    (aehd_flush_dynamic_msi_routes s).entries = (flushBucket s h0).entries := by
  simp only [aehd_flush_dynamic_msi_routes]
  exact foldFlush_single_bucket (List.range AEHD_MSI_HASHTAB_SIZE) s h0
    (List.mem_range.2 hlt) (List.nodup_range _) (fun h _ hne => hemp h hne)

theorem releaseScan_sC3Mid : releaseScan 0 [irqE, irqE] = [irqE] := by
  rw [releaseScan]
  simp [irqE, releaseScan]

theorem sC3Bad_eq_lit : sC3Bad = sC3Lit := by
  have hrel : aehd_irqchip_release_virq
      (aehd_irqchip_add_irq_route
        (aehd_irqchip_add_irq_route (initState 2) 0 0 0) 0 0 0) 0 = sC3Mid := by
    have h0 : aehd_irqchip_release_virq
        (aehd_irqchip_add_irq_route
          (aehd_irqchip_add_irq_route (initState 2) 0 0 0) 0 0 0) 0
        = { sC3Mid with entries := releaseScan 0 [irqE, irqE] } := rfl
    rw [h0, releaseScan_sC3Mid]
    rfl
  have hsend : aehd_irqchip_send_msi sC3Mid msgA = (sC3Lit, 0) := rfl
  show (aehd_irqchip_send_msi
    (aehd_irqchip_release_virq
      (aehd_irqchip_add_irq_route
        (aehd_irqchip_add_irq_route (initState 2) 0 0 0) 0 0 0) 0) msgA).1 = sC3Lit
  rw [hrel, hsend]

theorem releaseScan_sC3Lit : releaseScan 0 [irqE, msiEntry 0 msgA] = [msiEntry 0 msgA] := by
  rw [releaseScan]
  simp [irqE, releaseScan]

/-- Counterexample to claim C3 as stated over every routing-table state:
in the duplicate-GSI state `sC3Bad` — reached through the public
operations and at capacity, so the allocator flushes — the flush does
empty the cache bucket, but the release loop's swap-with-last skip
leaves the cached route's GSI still owning a routing entry, so the
flush does not remove each cached route's routing entry. -/
theorem claim_c3_counterexample :
    Reach 2 sC3Bad ∧
    sC3Bad.entries.length = sC3Bad.gsi_count ∧
    (aehd_irqchip_get_virq sC3Bad).1.msi_hashtab (aehd_hash_msi msgA.data) = [] ∧
    (∃ r ∈ sC3Bad.msi_hashtab (aehd_hash_msi msgA.data),
      countGsi (aehd_irqchip_get_virq sC3Bad).1.entries r.kroute.gsi ≠ 0) := by
  have hlen : sC3Bad.entries.length = sC3Bad.gsi_count := by
    rw [sC3Bad_eq_lit]
    rfl
  have hfst : (aehd_irqchip_get_virq sC3Bad).1 = aehd_flush_dynamic_msi_routes sC3Bad := by
    rw [get_virq_fst, if_pos hlen]
  have hemp : ∀ h, h ≠ aehd_hash_msi msgA.data → sC3Lit.msi_hashtab h = [] := by
    intro h hne
    simp [sC3Lit, hne]
  have hbucket : sC3Lit.msi_hashtab (aehd_hash_msi msgA.data) = [⟨msiEntry 0 msgA⟩] := by
    simp [sC3Lit]
  have hflushE : (aehd_flush_dynamic_msi_routes sC3Bad).entries = [msiEntry 0 msgA] := by
    rw [sC3Bad_eq_lit,
      flush_single_bucket sC3Lit (aehd_hash_msi msgA.data) (hash_lt msgA.data) hemp,
      flushBucket_entries, hbucket]
    have hstep : (([⟨msiEntry 0 msgA⟩] : List AEHDMSIRoute).foldl
        (fun acc r => aehd_irqchip_release_virq acc r.kroute.gsi) sC3Lit).entries
        = releaseScan 0 [irqE, msiEntry 0 msgA] := rfl
    rw [hstep, releaseScan_sC3Lit]
  refine ⟨?_, hlen, ?_, ⟨msiEntry 0 msgA⟩, ?_, ?_⟩
  · exact Reach.sendMsi msgA (Reach.release 0
      (Reach.addIrqchip 0 0 0 (Reach.addIrqchip 0 0 0 Reach.init)))
  · rw [hfst]
    exact flush_hashtab_empty sC3Bad _ (hash_lt msgA.data)
  · rw [sC3Bad_eq_lit, hbucket]
    exact List.mem_singleton.2 rfl
  · rw [hfst, hflushE]
    simp [countGsi_singleton, msiEntry]

/-- Claim C3 as amended: for every routing-table state in which no GSI
owns two routing entries, the GSI allocator flushes the dynamic MSI
cache exactly when the routing-entry count has reached the GSI capacity
(the flush empties every cache bucket, releases every cached GSI from
the bitmap and removes every cached GSI's routing entry); it then
returns the lowest GSI that is unset in the bitmap when one exists
below the capacity, and fails with `-ENOSPC` exactly when none exists,
leaving the state (in particular the bitmap) as it was after the
optional flush. -/
theorem claim_c3 (s : RState) (hdup : (s.entries.map RouteEntry.gsi).Nodup) :
    (s.entries.length ≠ s.gsi_count → (aehd_irqchip_get_virq s).1 = s) ∧
    (s.entries.length = s.gsi_count →
      (aehd_irqchip_get_virq s).1 = aehd_flush_dynamic_msi_routes s ∧
      (∀ h < AEHD_MSI_HASHTAB_SIZE, (aehd_irqchip_get_virq s).1.msi_hashtab h = []) ∧
      (∀ h, h < AEHD_MSI_HASHTAB_SIZE → ∀ r ∈ s.msi_hashtab h,
        countGsi (aehd_irqchip_get_virq s).1.entries r.kroute.gsi = 0 ∧
        r.kroute.gsi ∉ (aehd_irqchip_get_virq s).1.used_gsi_bitmap)) ∧
    (∀ g : Nat, (aehd_irqchip_get_virq s).2 = Int.ofNat g →
      g < s.gsi_count ∧ g ∉ (aehd_irqchip_get_virq s).1.used_gsi_bitmap ∧
      ∀ j < g, j ∈ (aehd_irqchip_get_virq s).1.used_gsi_bitmap) ∧
    ((aehd_irqchip_get_virq s).2 = -ENOSPC ↔
      ∀ g < s.gsi_count, g ∈ (aehd_irqchip_get_virq s).1.used_gsi_bitmap) := by
  have hone : AtMostOne s.entries := atMostOne_of_nodup s.entries hdup
  refine ⟨?_, ?_, fun g hg => get_virq_success s g hg, get_virq_enospc_iff s⟩
  · intro hne
    rw [get_virq_fst, if_neg hne]
  · intro hcap
    have hfst : (aehd_irqchip_get_virq s).1 = aehd_flush_dynamic_msi_routes s := by
      rw [get_virq_fst, if_pos hcap]
    refine ⟨hfst, ?_, ?_⟩
    · intro h hlt
      rw [hfst]
      exact flush_hashtab_empty s h hlt
    · intro h hlt r hr
      rw [hfst]
      exact flush_released s hone h hlt r hr

set_option maxRecDepth 100000 in
/-- Witness for C3 at the concrete at-capacity state `sCap` (2 GSIs,
both allocated to cached MSI routes): the allocator flushes and then
returns GSI 0 again. -/
theorem claim_c3_witness :
    (sCap.entries.map RouteEntry.gsi).Nodup ∧
    sCap.entries.length = sCap.gsi_count ∧
    (aehd_irqchip_get_virq sCap).1 = aehd_flush_dynamic_msi_routes sCap ∧
    (∀ h < AEHD_MSI_HASHTAB_SIZE, (aehd_irqchip_get_virq sCap).1.msi_hashtab h = []) ∧
    (aehd_irqchip_get_virq sCap).2 = Int.ofNat 0 := by
  have h := claim_c3 sCap (by decide)
  have hcap : sCap.entries.length = sCap.gsi_count := by decide
  refine ⟨by decide, hcap, (h.2.1 hcap).1, (h.2.1 hcap).2.1, by decide⟩

/-! Section: invariant preservation through the remaining public operations -/

theorem add_routing_entry_entries (s : RState) (e : RouteEntry) :
    (aehd_add_routing_entry s e).entries = s.entries ++ [e] := rfl

theorem add_routing_entry_bitmap (s : RState) (e : RouteEntry) :
    (aehd_add_routing_entry s e).used_gsi_bitmap
      = insert e.gsi s.used_gsi_bitmap := rfl

theorem add_routing_entry_gsi_count (s : RState) (e : RouteEntry) :
    (aehd_add_routing_entry s e).gsi_count = s.gsi_count := rfl

theorem fullInv_add (s : RState) (e : RouteEntry) (h : FullInv s)
    (hlt : e.gsi < s.gsi_count) (hnb : e.gsi ∉ s.used_gsi_bitmap) :
    FullInv (aehd_add_routing_entry s e) := by
  obtain ⟨hmem, hone⟩ := h
  constructor
  · intro x hx
    rw [add_routing_entry_entries] at hx
    rw [add_routing_entry_bitmap, add_routing_entry_gsi_count]
    rcases List.mem_append.1 hx with hx | hx
    · exact ⟨Finset.mem_insert_of_mem (hmem x hx).1, (hmem x hx).2⟩
    · rw [List.mem_singleton] at hx
      subst hx
      exact ⟨Finset.mem_insert_self _ _, hlt⟩
  · intro g
    rw [add_routing_entry_entries, countGsi_append, countGsi_singleton]
    by_cases hg : e.gsi = g
    · subst hg
      have h0 : countGsi s.entries e.gsi = 0 := by
        by_contra hc
        obtain ⟨x, hxl, hxg⟩ := countGsi_pos s.entries e.gsi (by omega)
        exact hnb (hxg ▸ (hmem x hxl).1)
      simp [h0]
    · have := hone g
      simp only [if_neg hg]
      omega

theorem fullInv_commit (s : RState) (h : FullInv s) :
    FullInv (aehd_irqchip_commit_routes s) := h

theorem fullInv_get_virq (s : RState) (h : FullInv s) :
    FullInv (aehd_irqchip_get_virq s).1 := by
  rw [get_virq_fst]
  split
  · exact flush_fullInv s h
  · exact h

theorem updateScan_spec (new : RouteEntry) :
    ∀ (l l' : List RouteEntry), updateScan new l = some l' →
      (∀ g, countGsi l' g = countGsi l g) ∧
      (∀ e ∈ l', e ∈ l ∨ (e = new ∧ ∃ e' ∈ l, e'.gsi = new.gsi)) := by
  intro l
  induction l with
  | nil =>
    intro l' h
    simp [updateScan] at h
  | cons e t ih =>
    intro l' h
    rw [updateScan] at h
    by_cases hg : e.gsi = new.gsi
    · rw [if_pos hg] at h
      have hl' : l' = new :: t := (Option.some_inj.1 h).symm
      subst hl'
      constructor
      · intro g
        rw [countGsi_cons, countGsi_cons, hg]
      · intro x hx
        rcases List.mem_cons.1 hx with rfl | hx
        · exact Or.inr ⟨rfl, e, List.mem_cons_self e t, hg⟩
        · exact Or.inl (List.mem_cons_of_mem e hx)
    · rw [if_neg hg] at h
      rcases Option.map_eq_some'.1 h with ⟨t', ht', rfl⟩
      obtain ⟨hc, hm⟩ := ih t' ht'
      constructor
      · intro g
        rw [countGsi_cons, countGsi_cons, hc g]
      · intro x hx
        rcases List.mem_cons.1 hx with rfl | hx
        · exact Or.inl (List.mem_cons_self x t)
        · rcases hm x hx with h' | ⟨h1, e', he', hg'⟩
          · exact Or.inl (List.mem_cons_of_mem e h')
          · exact Or.inr ⟨h1, e', List.mem_cons_of_mem e he', hg'⟩

theorem fullInv_update (s : RState) (new : RouteEntry) (h : FullInv s) :
    FullInv (aehd_update_routing_entry s new).1 := by
  have hdef : (aehd_update_routing_entry s new).1
      = match updateScan new s.entries with
        | none => s
        | some l => { s with entries := l } := by
    unfold aehd_update_routing_entry
    cases updateScan new s.entries <;> rfl
  rw [hdef]
  split
  · exact h
  · next l' hu =>
    obtain ⟨hc, hm⟩ := updateScan_spec new s.entries l' hu
    obtain ⟨hmem, hone⟩ := h
    constructor
    · intro x hx
      rcases hm x hx with hxl | ⟨rfl, e', he', hg'⟩
      · exact hmem x hxl
      · rw [← hg']
        exact hmem e' he'
    · intro g
      rw [show ({ s with entries := l' } : RState).entries = l' from rfl, hc g]
      exact hone g

theorem fullInv_add_msi (s : RState) (msg : MSIMessage) (h : FullInv s) :
    FullInv (aehd_irqchip_add_msi_route s msg).1 := by
  have hdef : (aehd_irqchip_add_msi_route s msg).1
      = if (aehd_irqchip_get_virq s).2 < 0 then (aehd_irqchip_get_virq s).1
        else aehd_irqchip_commit_routes
          (aehd_add_routing_entry (aehd_irqchip_get_virq s).1
            (msiEntry (aehd_irqchip_get_virq s).2.toNat msg)) := by
    simp only [aehd_irqchip_add_msi_route, msiEntry]
    split <;> rfl
  rw [hdef]
  split
  · exact fullInv_get_virq s h
  · next hneg =>
    have hnn : 0 ≤ (aehd_irqchip_get_virq s).2 := not_lt.1 hneg
    have hg : (aehd_irqchip_get_virq s).2
        = Int.ofNat (aehd_irqchip_get_virq s).2.toNat :=
      (Int.toNat_of_nonneg hnn).symm
    obtain ⟨hlt, hnb, -⟩ := get_virq_success s _ hg
    apply fullInv_commit
    apply fullInv_add _ _ (fullInv_get_virq s h)
    · rw [get_virq_gsi_count]
      exact hlt
    · exact hnb

theorem fullInv_send_msi (s : RState) (msg : MSIMessage) (h : FullInv s) :
    FullInv (aehd_irqchip_send_msi s msg).1 := by
  cases hl : aehd_lookup_msi_route s msg with
  | some route =>
    simp only [aehd_irqchip_send_msi, hl]
    exact h
  | none =>
    simp only [aehd_irqchip_send_msi, hl]
    by_cases hneg : (aehd_irqchip_get_virq s).2 < 0
    · simp only [if_pos hneg]
      exact fullInv_get_virq s h
    · simp only [if_neg hneg]
      have hnn : 0 ≤ (aehd_irqchip_get_virq s).2 := not_lt.1 hneg
      have hg : (aehd_irqchip_get_virq s).2
          = Int.ofNat (aehd_irqchip_get_virq s).2.toNat :=
        (Int.toNat_of_nonneg hnn).symm
      obtain ⟨hlt, hnb, -⟩ := get_virq_success s _ hg
      have hadd := fullInv_add (aehd_irqchip_get_virq s).1
        { gsi := (aehd_irqchip_get_virq s).2.toNat, flags := 0, u := msiPayload msg }
        (fullInv_get_virq s h) (by rw [get_virq_gsi_count]; exact hlt) hnb
      exact hadd

theorem fullInv_add_irqchip (s : RState) (irq irqchip pin : Nat) (h : FullInv s)
    (hlt : irq < s.gsi_count) (hnb : irq ∉ s.used_gsi_bitmap) :
    FullInv (aehd_irqchip_add_irq_route s irq irqchip pin) := by
  unfold aehd_irqchip_add_irq_route
  exact fullInv_add s _ h hlt hnb

theorem reachOK_fullInv (cap : Nat) (s : RState) (h : ReachOK cap s) : FullInv s := by
  induction h with
  | init =>
    refine ⟨fun e he => absurd he (List.not_mem_nil e), fun g => ?_⟩
    rw [show (initState cap).entries = [] from rfl, countGsi_nil]
    omega
  | allocGsi _ ih => exact fullInv_get_virq _ ih
  | addIrqchip irq irqchip pin _ hirq hnb hpin ih =>
    exact fullInv_add_irqchip _ irq irqchip pin ih hirq hnb
  | addMsi msg _ ih => exact fullInv_add_msi _ msg ih
  | updateMsi virq msg _ ih => exact fullInv_update _ _ ih
  | release virq _ ih => exact fullInv_release _ virq ih
  | sendMsi msg _ ih => exact fullInv_send_msi _ msg ih
  | flush _ ih => exact flush_fullInv _ ih

theorem routingInvariant_of_fullInv (s : RState) (h : FullInv s) :
    routingInvariant s := by
  obtain ⟨hmem, hone⟩ := h
  constructor
  · intro g _
    exact hone g
  · have hnd : (s.entries.map RouteEntry.gsi).Nodup := by
      rw [List.nodup_iff_count_le_one]
      intro a
      rw [← countGsi_eq_count_map]
      exact hone a
    have hsub : s.entries.map RouteEntry.gsi ⊆ List.range s.gsi_count := by
      intro a ha
      rw [List.mem_range]
      obtain ⟨e, he, rfl⟩ := List.mem_map.1 ha
      exact (hmem e he).2
    have hlen := (List.subperm_of_subset hnd hsub).length_le
    rw [List.length_map, List.length_range] at hlen
    exact hlen

/-- Counterexample to claim C4: two `aehd_irqchip_add_irq_route` calls
with the same GSI 0 (a trace of public operations from the empty state
with capacity 2) leave GSI 0 allocated with two routing entries,
violating the claimed invariant. -/
theorem claim_c4_counterexample :
    Reach 2 c4BadState ∧ ¬ routingInvariant c4BadState := by
  constructor
  · exact Reach.addIrqchip 0 0 0 (Reach.addIrqchip 0 0 0 Reach.init)
  · intro hinv
    have h0 : (0 : Nat) ∈ c4BadState.used_gsi_bitmap := by decide
    have hc := hinv.1 0 h0
    have h2 : countGsi c4BadState.entries 0 = 2 := by decide
    omega

/-- Claim C4 as amended: in every state reachable through the public
operations where each `aehd_irqchip_add_irq_route` call supplies a GSI
below capacity that is not currently allocated (and a pin below capacity,
per the C assert), every allocated GSI has at most one routing entry and
the routing-entry count never exceeds the GSI capacity. -/
theorem claim_c4_amended (cap : Nat) (s : RState) (h : ReachOK cap s) :
    routingInvariant s :=
  routingInvariant_of_fullInv s (reachOK_fullInv cap s h)

/-- Witness for the amended C4 after one MSI send from the empty 2-GSI
state. -/
theorem claim_c4_amended_witness :
    routingInvariant (aehd_irqchip_send_msi (initState 2) msgA).1 :=
  claim_c4_amended 2 _ (ReachOK.sendMsi msgA ReachOK.init)

/-! Section: slot-table lookup after region add and delete (claim C7) -/

theorem findFreeIdx_spec :
    ∀ (l : List AEHDSlot) (i : Nat), findFreeIdx l = some i →
      ∃ m, l.get? i = some m ∧ m.memory_size = 0 := by
  intro l
  induction l with
  | nil =>
    intro i h
    simp [findFreeIdx] at h
  | cons m rest ih =>
    intro i h
    rw [findFreeIdx] at h
    by_cases hm : m.memory_size = 0
    · rw [if_pos hm] at h
      have hi : i = 0 := (Option.some_inj.1 h).symm
      subst hi
      exact ⟨m, rfl, hm⟩
    · rw [if_neg hm] at h
      rcases Option.map_eq_some'.1 h with ⟨j, hj, rfl⟩
      obtain ⟨m', hm', hz⟩ := ih j hj
      exact ⟨m', hm', hz⟩

theorem lookupIdx_set_free (start size : Nat) (newSlot : AEHDSlot)
    (hns : newSlot.start_addr = start) (hms : newSlot.memory_size = size) :
    ∀ (l : List AEHDSlot) (i : Nat), findFreeIdx l = some i →
      (∀ m ∈ l, ¬(start = m.start_addr ∧ size = m.memory_size)) →
      lookupIdx start size (l.set i newSlot) = some i := by
  intro l
  induction l with
  | nil =>
    intro i h _
    simp [findFreeIdx] at h
  | cons m rest ih =>
    intro i h hno
    rw [findFreeIdx] at h
    by_cases hm : m.memory_size = 0
    · rw [if_pos hm] at h
      have hi : i = 0 := (Option.some_inj.1 h).symm
      subst hi
      rw [List.set_cons_zero, lookupIdx, if_pos ⟨hns.symm, hms.symm⟩]
    · rw [if_neg hm] at h
      rcases Option.map_eq_some'.1 h with ⟨j, hj, rfl⟩
      rw [show (m :: rest).set (j + 1) newSlot = m :: rest.set j newSlot from rfl]
      rw [lookupIdx, if_neg (hno m (List.mem_cons_self m rest))]
      rw [ih j hj (fun m' hm' => hno m' (List.mem_cons_of_mem m hm'))]
      rfl

theorem lookupIdx_none (start size : Nat) :
    ∀ l : List AEHDSlot,
      (∀ m ∈ l, ¬(start = m.start_addr ∧ size = m.memory_size)) →
      lookupIdx start size l = none := by
  intro l
  induction l with
  | nil => intro _; rfl
  | cons m rest ih =>
    intro h
    rw [lookupIdx, if_neg (h m (List.mem_cons_self m rest))]
    rw [ih (fun m' h' => h m' (List.mem_cons_of_mem m h'))]
    rfl

/-- Claim C7: after `on_region_add` of a RAM section whose aligned form
is nonempty and matches no registered slot, `find_matching_slot` on the
aligned `(start, size)` returns exactly the slot the add created (the
first free slot, filled with the aligned range, adjusted host address
and derived flags); after the matching `on_region_del`,
`find_matching_slot` on the same aligned pair returns nothing. -/
theorem claim_c7 (k : Nat) (gml : AEHDMemoryListener) (sec : MemSection) (i : Nat)
    (hram : sec.mr.is_ram = true)
    (hsize : (aehd_align_section sec k).2 ≠ 0)
    (hfree : aehd_get_free_slot gml = some i)
    (hnomatch : ∀ m ∈ gml.slots,
      ¬((aehd_align_section sec k).1 = m.start_addr ∧
        (aehd_align_section sec k).2 = m.memory_size)) :
    ∃ gml', aehd_region_add k gml sec = some gml' ∧
      aehd_lookup_matching_slot gml' (aehd_align_section sec k).1
        (aehd_align_section sec k).2 = some i ∧
      (∃ m₀, gml.slots.get? i = some m₀ ∧
        gml'.slots.get? i = some
          { slot := m₀.slot, start_addr := (aehd_align_section sec k).1,
            memory_size := (aehd_align_section sec k).2,
            ram := sec.mr.ram_base + sec.offset_within_region +
              ((aehd_align_section sec k).1 - sec.offset_within_address_space),
            flags := aehd_mem_flags sec.mr }) ∧
      ∃ gml'', aehd_region_del k gml' sec = some gml'' ∧
        aehd_lookup_matching_slot gml'' (aehd_align_section sec k).1
          (aehd_align_section sec k).2 = none := by
  obtain ⟨m₀, hm₀, hm₀z⟩ := findFreeIdx_spec gml.slots i hfree
  have hilen : i < gml.slots.length := by
    rcases List.get?_eq_some.1 hm₀ with ⟨hlt, -⟩
    exact hlt
  set start := (aehd_align_section sec k).1 with hstart
  set size := (aehd_align_section sec k).2 with hsizedef
  set created : AEHDSlot :=
    { slot := m₀.slot, start_addr := start, memory_size := size,
      ram := sec.mr.ram_base + sec.offset_within_region +
        (start - sec.offset_within_address_space),
      flags := aehd_mem_flags sec.mr } with hcreated
  have hadd : aehd_region_add k gml sec
      = some { gml with slots := gml.slots.set i created } := by
    simp only [aehd_region_add, aehd_set_phys_mem, hram, not_true, false_and, if_false,
      Bool.not_eq_true, if_neg hsize]
    simp only [hfree, hm₀]
  refine ⟨{ gml with slots := gml.slots.set i created }, hadd, ?_, ?_, ?_⟩
  · exact lookupIdx_set_free start size created rfl rfl gml.slots i hfree hnomatch
  · exact ⟨m₀, hm₀, List.get?_set_eq_of_lt created hilen⟩
  · have hlook : aehd_lookup_matching_slot { gml with slots := gml.slots.set i created }
        start size = some i :=
      lookupIdx_set_free start size created rfl rfl gml.slots i hfree hnomatch
    have hget : (gml.slots.set i created).get? i = some created :=
      List.get?_set_eq_of_lt created hilen
    refine ⟨{ gml with slots := gml.slots.set i ({ created with memory_size := 0 }) },
      ?_, ?_⟩
    · simp only [aehd_region_del, aehd_set_phys_mem, hram, not_true, false_and, if_false,
        Bool.not_eq_true, if_neg hsize]
      simp only [hlook, hget, List.set_set, if_true]
    · apply lookupIdx_none
      intro m hmem
      rcases List.mem_or_eq_of_mem_set hmem with hmem | rfl
      · exact hnomatch m hmem
      · intro hc
        exact hsize hc.2

/-- Witness for C7 with the empty two-slot table `gml0` and the aligned
RAM section `secA` (4 KiB pages): the add fills slot 0 and the delete
frees it again. -/
theorem claim_c7_witness :
    secA.mr.is_ram = true ∧
    (aehd_align_section secA 12).2 ≠ 0 ∧
    aehd_get_free_slot gml0 = some 0 ∧
    (∀ m ∈ gml0.slots,
      ¬((aehd_align_section secA 12).1 = m.start_addr ∧
        (aehd_align_section secA 12).2 = m.memory_size)) ∧
    (∃ gml', aehd_region_add 12 gml0 secA = some gml' ∧
      aehd_lookup_matching_slot gml' (aehd_align_section secA 12).1
        (aehd_align_section secA 12).2 = some 0 ∧
      (∃ m₀, gml0.slots.get? 0 = some m₀ ∧
        gml'.slots.get? 0 = some
          { slot := m₀.slot, start_addr := (aehd_align_section secA 12).1,
            memory_size := (aehd_align_section secA 12).2,
            ram := secA.mr.ram_base + secA.offset_within_region +
              ((aehd_align_section secA 12).1 - secA.offset_within_address_space),
            flags := aehd_mem_flags secA.mr }) ∧
      ∃ gml'', aehd_region_del 12 gml' secA = some gml'' ∧
        aehd_lookup_matching_slot gml'' (aehd_align_section secA 12).1
          (aehd_align_section secA 12).2 = none) := by
  refine ⟨by decide, by decide, by decide, by decide, ?_⟩
  exact claim_c7 12 gml0 secA 0 (by decide) (by decide) (by decide) (by decide)

end Aehd
